import Mathlib

/-
Verification of the SimpleMarkSweepGC collector
(rpython/memory/gc/marksweep.py) against its specification.

The collector state is embedded shallowly: raw memory is modelled as total
content planes indexed by machine address (a natural number), the
AddressDeque/AddressStack containers as lists, and the external
collaborators (raw allocator, root enumeration, per-type trace callback,
type metadata lookup, finalizer queues) by the contracts the spec gives
them.  Machine words are natural numbers; the header flag arithmetic uses
the same bit operations as the source.
-/

namespace MarkSweep

/-- Word width of the platform (rpython.rlib.rarithmetic.LONG_BIT on a
64-bit platform). -/
def LONG_BIT : Nat := 64

/-- first_gcflag = 1 << (LONG_BIT//2), marksweep.py line 10. -/
def first_gcflag : Nat := 1 <<< (LONG_BIT / 2)

/-- GCFLAG_SURVIVING, marksweep.py line 11. -/
def GCFLAG_SURVIVING : Nat := first_gcflag

/-- GCFLAG_EXTERNAL, marksweep.py line 12. -/
def GCFLAG_EXTERNAL : Nat := first_gcflag <<< 1

/-- GCFLAG_FINALIZER_REACHABLE, marksweep.py line 13. -/
def GCFLAG_FINALIZER_REACHABLE : Nat := first_gcflag <<< 2

/-- Largest signed machine-word value (sys.maxint), the bound used by
ovfcheck. -/
def sys_maxint : Nat := 2 ^ (LONG_BIT - 1) - 1

/-- Modelled from the spec: rpython.rlib.rarithmetic.ovfcheck (not under
src/) signals OverflowError when a machine-arithmetic result leaves the
signed word range. -/
def ovfcheck (n : Nat) : Except Unit Nat :=
  if n > sys_maxint then .error () else .ok n

/-- Modelled from the spec: the external collaborators fixed per heap --
the size of the GC header prepended to every object, and the type
metadata lookup (fixed/variable size functions per type id).  These live
outside src/ (GCBase and the type system); only their contracts are
used. -/
structure GCConfig where
  size_gc_header : Nat
  is_varsize : Nat → Bool
  fixed_size : Nat → Nat
  varitem_size : Nat → Nat

/-- State of a SimpleMarkSweepGC instance.  tids, refs, weakslot and
varlength are the memory planes: tids addr is the header word stored at
raw address addr; refs p lists the managed references embedded in the
object whose object pointer (address just past the GC header) is p, as
the per-type trace callback would yield them; weakslot p is the pointer
stored at the type-determined weak-slot offset of p (0 is NULL);
varlength p is the length field of a variable-sized object.  next_addr
and freed model the raw allocator collaborator (fresh-address cursor and
the log of raw_free calls).  alloc_cost and collections_started are
ghost observers: the cost added to the heap-size counter when an object
was allocated, and the number of collection cycles actually started. -/
@[ext]
structure GCState where
  tids : Nat → Nat
  refs : Nat → List Nat
  weakslot : Nat → Nat
  varlength : Nat → Nat
  address_space : List Nat
  objects_with_weakrefs : List Nat
  objects_with_finalizers : List (Nat × Int)
  run_finalizers : List (Int × Nat)
  collection_lock : Bool
  heap_growth_factor : Int
  initial_heap_size : Int
  prev_heap_size : Int
  cur_heap_size : Int
  next_addr : Nat
  freed : List Nat
  alloc_cost : Nat → Int
  collections_started : Nat

/-- SimpleMarkSweepGC.setup: empty registries, lock released, growth
factor 2, previous heap size = initial heap size = 200, current counter
0. -/
def setup (s : GCState) : GCState :=
  { s with
    address_space := []
    objects_with_weakrefs := []
    objects_with_finalizers := []
    run_finalizers := []
    collection_lock := false
    heap_growth_factor := 2
    initial_heap_size := 200
    prev_heap_size := 200
    cur_heap_size := 0 }

/-- llop.combine_ushort: pack a 16-bit type id and the flag bits into one
header word. -/
def combine (typeid16 flags : Nat) : Nat := typeid16 ||| flags

/-- llop.extract_ushort: the low 16 bits of a header word. -/
def extract_ushort (tid : Nat) : Nat := tid % 2 ^ 16

/-- GCBase.header: the header of the object whose object pointer is obj
sits size_gc_header bytes below it. -/
def header_tid (cfg : GCConfig) (s : GCState) (obj : Nat) : Nat :=
  s.tids (obj - cfg.size_gc_header)

/-- SimpleMarkSweepGC.get_type_id. -/
def get_type_id (cfg : GCConfig) (s : GCState) (addr : Nat) : Nat :=
  extract_ushort (header_tid cfg s addr)

/-- SimpleMarkSweepGC.init_gc_object: write combine(typeid16, flags) into
the header at raw address addr. -/
def init_gc_object (cfg : GCConfig) (addr typeid16 flags : Nat)
    (s : GCState) : GCState :=
  { s with tids := Function.update s.tids addr (combine typeid16 flags) }

/-- SimpleMarkSweepGC.init_gc_object_immortal: a prebuilt object carries
GCFLAG_EXTERNAL and GCFLAG_SURVIVING permanently. -/
def init_gc_object_immortal (cfg : GCConfig) (addr typeid16 flags : Nat)
    (s : GCState) : GCState :=
  init_gc_object cfg addr typeid16
    (flags ||| GCFLAG_EXTERNAL ||| GCFLAG_SURVIVING) s

/-- SimpleMarkSweepGC.surviving: test GCFLAG_SURVIVING in the header of
the object pointer obj. -/
def surviving (cfg : GCConfig) (s : GCState) (obj : Nat) : Bool :=
  header_tid cfg s obj &&& GCFLAG_SURVIVING != 0

/-- Set GCFLAG_SURVIVING in the header of the object pointer obj
(hdr.tid |= GCFLAG_SURVIVING). -/
def set_surviving (cfg : GCConfig) (obj : Nat) (s : GCState) : GCState :=
  let t := Function.update s.tids (obj - cfg.size_gc_header)
    (header_tid cfg s obj ||| GCFLAG_SURVIVING)
  { s with tids := t }

/-- SimpleMarkSweepGC.mark_surviving_callback: a child that has not been
visited yet is pushed on the stack and flagged. -/
def mark_surviving_callback (cfg : GCConfig) (child : Nat)
    (p : GCState × List Nat) : GCState × List Nat :=
  if surviving cfg p.1 child then p
  else (set_surviving cfg child p.1, child :: p.2)

/-- Modelled from the spec: GCBase.trace (not under src/) applies the
callback to every managed reference embedded in the object at addr; the
refs plane lists those references. -/
def trace_mark (cfg : GCConfig) (addr : Nat) (p : GCState × List Nat) :
    GCState × List Nat :=
  (p.1.refs addr).foldl (fun q c => mark_surviving_callback cfg c q) p

/-- While loop of SimpleMarkSweepGC.mark_recursive, with explicit fuel:
pop an address, trace it, continue.  The fuel chosen by mark_recursive is
proven sufficient for closed heaps (the loop then ends on an empty
stack). -/
def mark_loop (cfg : GCConfig) : Nat → GCState → List Nat → GCState
  | 0, s, _ => s
  | _ + 1, s, [] => s
  | fuel + 1, s, addr :: rest =>
    let p := trace_mark cfg addr (s, rest)
    mark_loop cfg fuel p.1 p.2

/-- SimpleMarkSweepGC.mark_recursive: flag the root, then run the
iterative depth-first walk with an explicit stack. -/
def mark_recursive (cfg : GCConfig) (root_addr : Nat) (s : GCState) :
    GCState :=
  let s1 := set_surviving cfg root_addr s
  mark_loop cfg (2 * s1.address_space.length + 1) s1 [root_addr]

/-- SimpleMarkSweepGC.mark: enumerate_all_roots is modelled from the
spec (root enumeration collaborator yielding the list of root
addresses); mark_recursive is applied to each root in turn. -/
def mark (cfg : GCConfig) (roots : List Nat) (s : GCState) : GCState :=
  roots.foldl (fun t r => mark_recursive cfg r t) s

/-- Modelled from the spec: GCBase.get_size (not under src/) computes an
object size from its type metadata; for a variable-sized type it adds
item size times the stored length field.  The GC header is not
included. -/
def get_size (cfg : GCConfig) (s : GCState) (addr : Nat) : Nat :=
  let t := get_type_id cfg s addr
  if cfg.is_varsize t then
    cfg.fixed_size t + cfg.varitem_size t * s.varlength addr
  else cfg.fixed_size t

/-- Modelled from the spec: the raw allocation primitive returns a fresh
address and advances the allocator cursor. -/
def raw_malloc (totalsize : Nat) (s : GCState) : GCState × Nat :=
  ({ s with next_addr := s.next_addr + totalsize }, s.next_addr)

/-- Modelled from the spec: the raw deallocation primitive; the freed
log records every release for the released-exactly-once property. -/
def raw_free (addr : Nat) (s : GCState) : GCState :=
  { s with freed := s.freed ++ [addr] }

/-- While loop of SimpleMarkSweepGC.sweep: pop each address off the old
registry; a flagged object has its flag cleared
(hdr.tid & ~GCFLAG_SURVIVING, Nat.ldiff on arbitrary-precision words)
and joins the new registry; otherwise its size is recomputed from the
type metadata, subtracted from the heap-size counter, and its raw memory
is freed.  The ll_assert debug check is a no-op when it passes. -/
def sweep_loop (cfg : GCConfig) :
    List Nat → List Nat → GCState → GCState
  | [], new_heap, s => { s with address_space := new_heap }
  | addr :: rest, new_heap, s =>
    if s.tids addr &&& GCFLAG_SURVIVING != 0 then
      let t := Function.update s.tids addr
        (Nat.ldiff (s.tids addr) GCFLAG_SURVIVING)
      sweep_loop cfg rest (new_heap ++ [addr]) { s with tids := t }
    else
      let size := get_size cfg s (addr + cfg.size_gc_header)
      sweep_loop cfg rest new_heap
        (raw_free addr { s with cur_heap_size := s.cur_heap_size - size })

/-- SimpleMarkSweepGC.sweep. -/
def sweep (cfg : GCConfig) (s : GCState) : GCState :=
  sweep_loop cfg s.address_space [] { s with address_space := [] }

/-- SimpleMarkSweepGC.register_finalizer: append the (object,
finalizer-queue-index) pair to the finalizer registry. -/
def register_finalizer (fq_index : Int) (obj : Nat) (s : GCState) :
    GCState :=
  { s with objects_with_finalizers :=
      s.objects_with_finalizers ++ [(obj, fq_index)] }

/-- Modelled from the spec: GCBase.mark_finalizer_to_run (not under
src/) schedules a deferred callback by appending it to the
run_finalizers queue. -/
def mark_finalizer_to_run (fq_index : Int) (obj : Nat) (s : GCState) :
    GCState :=
  { s with run_finalizers := s.run_finalizers ++ [(fq_index, obj)] }

/-- Partition loop of deal_with_objects_with_finalizers: a surviving
entry is requeued unchanged; a dead entry is scheduled to run
(mark_finalizer_to_run) and its object recorded on the finalising
list. -/
def deal_loop (cfg : GCConfig) :
    List (Nat × Int) → List (Nat × Int) → List Nat → GCState →
    GCState × List (Nat × Int) × List Nat
  | [], nwf, fin, s => (s, nwf, fin)
  | (x, fq) :: rest, nwf, fin, s =>
    if surviving cfg s x then
      deal_loop cfg rest (nwf ++ [(x, fq)]) fin s
    else
      deal_loop cfg rest nwf (fin ++ [x]) (mark_finalizer_to_run fq x s)

/-- SimpleMarkSweepGC.deal_with_objects_with_finalizers: partition the
finalizer registry, revive every scheduled object by re-marking from it,
and replace the registry with the surviving entries. -/
def deal_with_objects_with_finalizers (cfg : GCConfig) (s : GCState) :
    GCState :=
  let r := deal_loop cfg s.objects_with_finalizers [] [] s
  let s2 := r.2.2.foldl (fun t x => mark_recursive cfg x t) r.1
  { s2 with objects_with_finalizers := r.2.1 }

/-- Loop of SimpleMarkSweepGC.invalidate_weakrefs: a dead carrier is
dropped; for a surviving carrier the slot content is read (the
type-determined weak-slot offset is resolved by the type metadata
collaborator; the weakslot plane holds the slot content): a surviving
target keeps the entry registered, a dead target has the slot
overwritten with NULL. -/
def invalidate_loop (cfg : GCConfig) :
    List Nat → List Nat → GCState → GCState
  | [], nw, s => { s with objects_with_weakrefs := nw }
  | obj :: rest, nw, s =>
    if surviving cfg s obj then
      let pointing_to := s.weakslot obj
      if pointing_to ≠ 0 then
        if surviving cfg s pointing_to then
          invalidate_loop cfg rest (obj :: nw) s
        else
          invalidate_loop cfg rest nw
            { s with weakslot := Function.update s.weakslot obj 0 }
      else invalidate_loop cfg rest nw s
    else invalidate_loop cfg rest nw s

/-- SimpleMarkSweepGC.invalidate_weakrefs. -/
def invalidate_weakrefs (cfg : GCConfig) (s : GCState) : GCState :=
  invalidate_loop cfg s.objects_with_weakrefs [] s

/-- Modelled from the spec: GCBase.execute_finalizers (not under src/)
runs every deferred callback collected during the cycle in scheduling
order; each callback is arbitrary embedding-system code, passed in as
cb. -/
def run_finalizer_queue (cb : Int → Nat → GCState → GCState) :
    List (Int × Nat) → GCState → GCState
  | [], s => s
  | (fq, x) :: rest, s => run_finalizer_queue cb rest (cb fq x s)

/-- Modelled from the spec: execute_finalizers drains the run_finalizers
queue and invokes the callbacks. -/
def execute_finalizers (cb : Int → Nat → GCState → GCState)
    (s : GCState) : GCState :=
  run_finalizer_queue cb s.run_finalizers { s with run_finalizers := [] }

/-- Entry of a collection cycle: take the collection lock.  The ghost
cycle counter records that a cycle actually started. -/
def collect_enter (s : GCState) : GCState :=
  { s with collection_lock := true
           collections_started := s.collections_started + 1 }

/-- Phase 1 of collect: mark from the roots. -/
def collect_mark (cfg : GCConfig) (roots : List Nat) (s : GCState) :
    GCState :=
  mark cfg roots (collect_enter s)

/-- Phases 1-2 of collect: mark, then the finalizer partition when the
finalizer registry is non-empty. -/
def collect_pre_weak (cfg : GCConfig) (roots : List Nat) (s : GCState) :
    GCState :=
  let s2 := collect_mark cfg roots s
  if s2.objects_with_finalizers.isEmpty then s2
  else deal_with_objects_with_finalizers cfg s2

/-- Phases 1-3 of collect: weak-reference invalidation runs when the
weak registry is non-empty, strictly before sweep. -/
def collect_pre_sweep (cfg : GCConfig) (roots : List Nat) (s : GCState) :
    GCState :=
  let s3 := collect_pre_weak cfg roots s
  if s3.objects_with_weakrefs.isEmpty then s3
  else invalidate_weakrefs cfg s3

/-- Phases 1-4 of collect: the state after sweep, handed to
execute_finalizers. -/
def collect_pre_exec (cfg : GCConfig) (roots : List Nat) (s : GCState) :
    GCState :=
  sweep cfg (collect_pre_sweep cfg roots s)

/-- SimpleMarkSweepGC.collect: no-op under the collection lock;
otherwise mark, finalizer partition, weak invalidation, sweep, deferred
finalizer callbacks, commit the new growth baseline and release the
lock. -/
def collect (cfg : GCConfig) (cb : Int → Nat → GCState → GCState)
    (roots : List Nat) (s : GCState) : GCState :=
  if s.collection_lock then s
  else
    let s6 := execute_finalizers cb (collect_pre_exec cfg roots s)
    { s6 with prev_heap_size := s6.cur_heap_size, collection_lock := false }

/-- SimpleMarkSweepGC.malloc_fixedsize: growth check (one collection at
most), raw allocation, header setup, registry insert, optional finalizer
and weak registration, heap-size accounting.  The returned number is the
object pointer (result + size_gc_header). -/
def malloc_fixedsize (cfg : GCConfig)
    (cb : Int → Nat → GCState → GCState) (roots : List Nat)
    (typeid size : Nat)
    (needs_finalizer is_finalizer_light contains_weakptr : Bool)
    (s : GCState) : GCState × Nat :=
  let size_gc_header := cfg.size_gc_header
  let totalsize := size_gc_header + size
  let s :=
    if (totalsize : Int) + s.cur_heap_size >
        s.heap_growth_factor * s.prev_heap_size then
      collect cfg cb roots s
    else s
  let r := raw_malloc totalsize s
  let result := r.2
  let s := init_gc_object cfg result typeid 0 r.1
  let s := { s with address_space := s.address_space ++ [result] }
  let s :=
    if needs_finalizer then
      { s with objects_with_finalizers :=
          s.objects_with_finalizers ++ [(result + size_gc_header, -1)] }
    else s
  let s :=
    if contains_weakptr then
      { s with objects_with_weakrefs :=
          (result + size_gc_header) :: s.objects_with_weakrefs }
    else s
  let s := { s with
    cur_heap_size := s.cur_heap_size + (totalsize : Int)
    alloc_cost := Function.update s.alloc_cost result (totalsize : Int) }
  (s, result + size_gc_header)

/-- SimpleMarkSweepGC.malloc_varsize: the total size is computed with
ovfcheck; on overflow the out-of-memory condition is raised (the raise
memoryError statement) before the growth check and before any raw
allocation.  Otherwise as malloc_fixedsize, plus the length field write
at offset_to_length (the varlength plane holds that field). -/
def malloc_varsize (cfg : GCConfig)
    (cb : Int → Nat → GCState → GCState) (roots : List Nat)
    (typeid length size itemsize offset_to_length : Nat)
    (s : GCState) : GCState × Except Unit Nat :=
  let size_gc_header := cfg.size_gc_header
  let nonvarsize := size_gc_header + size
  match ovfcheck (itemsize * length) with
  | .error _ => (s, .error ())
  | .ok varsize =>
    match ovfcheck (nonvarsize + varsize) with
    | .error _ => (s, .error ())
    | .ok totalsize =>
      let s :=
        if (totalsize : Int) + s.cur_heap_size >
            s.heap_growth_factor * s.prev_heap_size then
          collect cfg cb roots s
        else s
      let r := raw_malloc totalsize s
      let result := r.2
      let s := init_gc_object cfg result typeid 0 r.1
      let s := { s with address_space := s.address_space ++ [result] }
      let s := { s with varlength :=
          Function.update s.varlength (result + size_gc_header) length }
      let s := { s with
        cur_heap_size := s.cur_heap_size + (totalsize : Int)
        alloc_cost :=
          Function.update s.alloc_cost result (totalsize : Int) }
      (s, .ok (result + size_gc_header))


/-! ### Header-flag arithmetic -/

theorem gcflag_eq : GCFLAG_SURVIVING = 2 ^ 32 := by decide

theorem and_flag_bne (t : Nat) :
    (t &&& GCFLAG_SURVIVING != 0) = t.testBit 32 := by
  rw [gcflag_eq, Nat.and_two_pow]
  cases h : t.testBit 32 <;> simp

theorem testBit_or_flag (t : Nat) :
    (t ||| GCFLAG_SURVIVING).testBit 32 = true := by
  rw [gcflag_eq, Nat.testBit_lor, Nat.testBit_two_pow_self]
  simp

theorem testBit_or_flag_other (t : Nat) (i : Nat) (hi : i ≠ 32) :
    (t ||| GCFLAG_SURVIVING).testBit i = t.testBit i := by
  rw [gcflag_eq, Nat.testBit_lor, Nat.testBit_two_pow_of_ne (Ne.symm hi)]
  simp

theorem testBit_ldiff_flag (t : Nat) :
    (Nat.ldiff t GCFLAG_SURVIVING).testBit 32 = false := by
  rw [gcflag_eq, Nat.testBit_ldiff, Nat.testBit_two_pow_self]
  simp

theorem ldiff_or_cancel {t : Nat} (h : t.testBit 32 = false) :
    Nat.ldiff (t ||| GCFLAG_SURVIVING) GCFLAG_SURVIVING = t := by
  apply Nat.eq_of_testBit_eq
  intro i
  by_cases hi : i = 32
  · subst hi
    rw [gcflag_eq, Nat.testBit_ldiff, Nat.testBit_two_pow_self, h]
    simp
  · rw [gcflag_eq, Nat.testBit_ldiff, Nat.testBit_two_pow_of_ne (Ne.symm hi)]
    rw [← gcflag_eq, testBit_or_flag_other t i hi]
    simp

theorem ldiff_self_of_clear {t : Nat} (h : t.testBit 32 = false) :
    Nat.ldiff t GCFLAG_SURVIVING = t := by
  apply Nat.eq_of_testBit_eq
  intro i
  by_cases hi : i = 32
  · subst hi
    rw [gcflag_eq, Nat.testBit_ldiff, Nat.testBit_two_pow_self, h]
    simp
  · rw [gcflag_eq, Nat.testBit_ldiff, Nat.testBit_two_pow_of_ne (Ne.symm hi)]
    simp

theorem surviving_eq_testBit (cfg : GCConfig) (s : GCState) (p : Nat) :
    surviving cfg s p = (s.tids (p - cfg.size_gc_header)).testBit 32 := by
  unfold surviving header_tid
  exact and_flag_bne _

theorem combine_testBit_of_small {typeid : Nat} (h : typeid < 2 ^ 16) :
    (combine typeid 0).testBit 32 = false := by
  unfold combine
  rw [Nat.or_zero]
  exact Nat.testBit_lt_two_pow (lt_trans h (by norm_num))

/-! ### Frame reasoning: phases that only modify header words -/

/-- Replace only the tids plane of a state. -/
def tids_update (s : GCState) (t : Nat → Nat) : GCState := { s with tids := t }

/-- States that agree on everything except (possibly) the header plane. -/
def EqExceptTids (a b : GCState) : Prop := b = tids_update a b.tids

theorem EqExceptTids.rfl {a : GCState} : EqExceptTids a a := Eq.refl a

theorem EqExceptTids.trans {a b c : GCState}
    (h1 : EqExceptTids a b) (h2 : EqExceptTids b c) : EqExceptTids a c := by
  unfold EqExceptTids at *
  calc c = tids_update b c.tids := h2
    _ = tids_update (tids_update a b.tids) c.tids := by rw [← h1]
    _ = tids_update a c.tids := by rfl

theorem EqExceptTids.refs {a b : GCState} (h : EqExceptTids a b) :
    b.refs = a.refs := by rw [h]; rfl

theorem EqExceptTids.weakslot {a b : GCState} (h : EqExceptTids a b) :
    b.weakslot = a.weakslot := by rw [h]; rfl

theorem EqExceptTids.varlength {a b : GCState} (h : EqExceptTids a b) :
    b.varlength = a.varlength := by rw [h]; rfl

theorem EqExceptTids.address_space {a b : GCState} (h : EqExceptTids a b) :
    b.address_space = a.address_space := by rw [h]; rfl

theorem EqExceptTids.objects_with_weakrefs {a b : GCState}
    (h : EqExceptTids a b) :
    b.objects_with_weakrefs = a.objects_with_weakrefs := by rw [h]; rfl

theorem EqExceptTids.objects_with_finalizers {a b : GCState}
    (h : EqExceptTids a b) :
    b.objects_with_finalizers = a.objects_with_finalizers := by rw [h]; rfl

theorem EqExceptTids.run_finalizers {a b : GCState} (h : EqExceptTids a b) :
    b.run_finalizers = a.run_finalizers := by rw [h]; rfl

theorem EqExceptTids.collection_lock {a b : GCState} (h : EqExceptTids a b) :
    b.collection_lock = a.collection_lock := by rw [h]; rfl

theorem EqExceptTids.heap_growth_factor {a b : GCState}
    (h : EqExceptTids a b) :
    b.heap_growth_factor = a.heap_growth_factor := by rw [h]; rfl

theorem EqExceptTids.initial_heap_size {a b : GCState}
    (h : EqExceptTids a b) :
    b.initial_heap_size = a.initial_heap_size := by rw [h]; rfl

theorem EqExceptTids.prev_heap_size {a b : GCState} (h : EqExceptTids a b) :
    b.prev_heap_size = a.prev_heap_size := by rw [h]; rfl

theorem EqExceptTids.cur_heap_size {a b : GCState} (h : EqExceptTids a b) :
    b.cur_heap_size = a.cur_heap_size := by rw [h]; rfl

theorem EqExceptTids.next_addr {a b : GCState} (h : EqExceptTids a b) :
    b.next_addr = a.next_addr := by rw [h]; rfl

theorem EqExceptTids.freed {a b : GCState} (h : EqExceptTids a b) :
    b.freed = a.freed := by rw [h]; rfl

theorem EqExceptTids.alloc_cost {a b : GCState} (h : EqExceptTids a b) :
    b.alloc_cost = a.alloc_cost := by rw [h]; rfl

theorem EqExceptTids.collections_started {a b : GCState}
    (h : EqExceptTids a b) :
    b.collections_started = a.collections_started := by rw [h]; rfl

theorem eqet_set_surviving (cfg : GCConfig) (obj : Nat) (s : GCState) :
    EqExceptTids s (set_surviving cfg obj s) := Eq.refl _

theorem eqet_callback (cfg : GCConfig) (c : Nat) (p : GCState × List Nat) :
    EqExceptTids p.1 (mark_surviving_callback cfg c p).1 := by
  unfold mark_surviving_callback
  split
  · exact .rfl
  · exact Eq.refl _

theorem eqet_foldl_callback (cfg : GCConfig) (l : List Nat) :
    ∀ p : GCState × List Nat,
      EqExceptTids p.1
        (l.foldl (fun q c => mark_surviving_callback cfg c q) p).1 := by
  induction l with
  | nil => intro p; exact .rfl
  | cons c l ih =>
    intro p
    exact .trans (eqet_callback cfg c p) (ih _)

theorem eqet_trace_mark (cfg : GCConfig) (addr : Nat)
    (p : GCState × List Nat) : EqExceptTids p.1 (trace_mark cfg addr p).1 :=
  eqet_foldl_callback cfg _ p

theorem eqet_mark_loop (cfg : GCConfig) (fuel : Nat) :
    ∀ (s : GCState) (st : List Nat), EqExceptTids s (mark_loop cfg fuel s st) := by
  induction fuel with
  | zero => intro s st; exact .rfl
  | succ fuel ih =>
    intro s st
    cases st with
    | nil => exact .rfl
    | cons addr rest =>
      exact .trans (eqet_trace_mark cfg addr (s, rest)) (ih _ _)

theorem eqet_mark_recursive (cfg : GCConfig) (root : Nat) (s : GCState) :
    EqExceptTids s (mark_recursive cfg root s) :=
  .trans (eqet_set_surviving cfg root s) (eqet_mark_loop cfg _ _ _)

theorem eqet_fold_mark_recursive (cfg : GCConfig) (l : List Nat) :
    ∀ s : GCState,
      EqExceptTids s (l.foldl (fun t x => mark_recursive cfg x t) s) := by
  induction l with
  | nil => intro s; exact .rfl
  | cons r l ih =>
    intro s
    exact .trans (eqet_mark_recursive cfg r s) (ih _)

theorem eqet_mark (cfg : GCConfig) (roots : List Nat) (s : GCState) :
    EqExceptTids s (mark cfg roots s) :=
  eqet_fold_mark_recursive cfg roots s

/-- Two states with the same header plane agree on the surviving test. -/
theorem surviving_congr {cfg : GCConfig} {s1 s2 : GCState}
    (h : s1.tids = s2.tids) : surviving cfg s1 = surviving cfg s2 := by
  funext p
  unfold surviving header_tid
  rw [h]

/-! ### Finalizer partition: characterization of deal_loop and
deal_with_objects_with_finalizers -/

theorem mark_finalizer_to_run_tids (fq : Int) (x : Nat) (s : GCState) :
    (mark_finalizer_to_run fq x s).tids = s.tids := rfl

theorem surviving_set_run (cfg : GCConfig) (s : GCState)
    (l : List (Int × Nat)) (p : Nat) :
    surviving cfg { s with run_finalizers := l } p = surviving cfg s p :=
  rfl

theorem deal_loop_spec (cfg : GCConfig) (entries : List (Nat × Int)) :
    ∀ (nwf : List (Nat × Int)) (fin : List Nat) (s : GCState),
      deal_loop cfg entries nwf fin s =
        ({ s with run_finalizers := s.run_finalizers ++
             ((entries.filter (fun e => !surviving cfg s e.1)).map
               (fun e => (e.2, e.1))) },
         nwf ++ entries.filter (fun e => surviving cfg s e.1),
         fin ++ (entries.filter (fun e => !surviving cfg s e.1)).map
           (fun e => e.1)) := by
  induction entries with
  | nil =>
    intro nwf fin s
    simp [deal_loop]
  | cons e rest ih =>
    intro nwf fin s
    obtain ⟨x, fq⟩ := e
    by_cases h : surviving cfg s x
    · rw [deal_loop]
      simp only [h, if_true]
      rw [ih]
      simp [List.filter_cons, h, List.append_assoc]
    · rw [deal_loop]
      simp only [h, if_false, Bool.false_eq_true]
      rw [ih]
      simp [mark_finalizer_to_run, surviving_set_run, List.filter_cons, h,
        List.append_assoc]

/-- Proof-layer name for the revival loop of
deal_with_objects_with_finalizers (the second while loop): re-mark from
every object about to be finalised. -/
def revive_fold (cfg : GCConfig) (l : List Nat) (s : GCState) : GCState :=
  l.foldl (fun t x => mark_recursive cfg x t) s

/-- Finalizer-registered objects found dead by the partition loop, in
registry order. -/
def dead_finalizer_objs (cfg : GCConfig) (s : GCState) : List Nat :=
  (s.objects_with_finalizers.filter (fun e => !surviving cfg s e.1)).map
    (fun e => e.1)

/-- Queue entries scheduled by the partition loop, in scheduling order. -/
def scheduled_entries (cfg : GCConfig) (s : GCState) : List (Int × Nat) :=
  (s.objects_with_finalizers.filter (fun e => !surviving cfg s e.1)).map
    (fun e => (e.2, e.1))

/-- Finalizer-registry entries requeued by the partition loop. -/
def kept_finalizer_entries (cfg : GCConfig) (s : GCState) :
    List (Nat × Int) :=
  s.objects_with_finalizers.filter (fun e => surviving cfg s e.1)

/-- The state right after the partition loop: the scheduled entries have
been appended to the deferred-run queue. -/
def sched_state (cfg : GCConfig) (s : GCState) : GCState :=
  { s with run_finalizers := s.run_finalizers ++ scheduled_entries cfg s }

theorem deal_with_eq (cfg : GCConfig) (s : GCState) :
    deal_with_objects_with_finalizers cfg s =
      { revive_fold cfg (dead_finalizer_objs cfg s) (sched_state cfg s)
        with objects_with_finalizers := kept_finalizer_entries cfg s } := by
  unfold deal_with_objects_with_finalizers
  rw [deal_loop_spec]
  simp [revive_fold, dead_finalizer_objs, scheduled_entries,
    kept_finalizer_entries, sched_state]

/-! ### Deferred finalizer execution -/

theorem run_queue_preserve {α : Type} (cb : Int → Nat → GCState → GCState)
    (g : GCState → α) (hg : ∀ q x t, g (cb q x t) = g t) :
    ∀ (l : List (Int × Nat)) (s : GCState),
      g (run_finalizer_queue cb l s) = g s := by
  intro l
  induction l with
  | nil => intro s; rfl
  | cons e rest ih =>
    intro s
    obtain ⟨fq, x⟩ := e
    rw [run_finalizer_queue, ih, hg]

theorem execute_finalizers_of_empty (cb : Int → Nat → GCState → GCState)
    (s : GCState) (h : s.run_finalizers = []) :
    execute_finalizers cb s = s := by
  unfold execute_finalizers
  rw [h]
  show ({ s with run_finalizers := [] } : GCState) = s
  rw [← h]

/-! ### Weak-reference invalidation: properties of invalidate_loop -/

theorem surviving_set_weakslot (cfg : GCConfig) (s : GCState)
    (w : Nat → Nat) (p : Nat) :
    surviving cfg { s with weakslot := w } p = surviving cfg s p := rfl

/-- The invalidation loop touches nothing but the weakslot plane and the
weak registry. -/
theorem invalidate_loop_frame (cfg : GCConfig) (l : List Nat) :
    ∀ (nw : List Nat) (s : GCState),
      (invalidate_loop cfg l nw s).tids = s.tids ∧
      (invalidate_loop cfg l nw s).refs = s.refs ∧
      (invalidate_loop cfg l nw s).varlength = s.varlength ∧
      (invalidate_loop cfg l nw s).address_space = s.address_space ∧
      (invalidate_loop cfg l nw s).objects_with_finalizers =
        s.objects_with_finalizers ∧
      (invalidate_loop cfg l nw s).run_finalizers = s.run_finalizers ∧
      (invalidate_loop cfg l nw s).collection_lock = s.collection_lock ∧
      (invalidate_loop cfg l nw s).heap_growth_factor =
        s.heap_growth_factor ∧
      (invalidate_loop cfg l nw s).initial_heap_size =
        s.initial_heap_size ∧
      (invalidate_loop cfg l nw s).prev_heap_size = s.prev_heap_size ∧
      (invalidate_loop cfg l nw s).cur_heap_size = s.cur_heap_size ∧
      (invalidate_loop cfg l nw s).next_addr = s.next_addr ∧
      (invalidate_loop cfg l nw s).freed = s.freed ∧
      (invalidate_loop cfg l nw s).alloc_cost = s.alloc_cost ∧
      (invalidate_loop cfg l nw s).collections_started =
        s.collections_started := by
  induction l with
  | nil => intro nw s; exact ⟨rfl, rfl, rfl, rfl, rfl, rfl, rfl, rfl, rfl,
      rfl, rfl, rfl, rfl, rfl, rfl⟩
  | cons o rest ih =>
    intro nw s
    rw [invalidate_loop]
    dsimp only
    split
    · split
      · split
        · exact ih _ _
        · exact ih _ _
      · exact ih _ _
    · exact ih _ _

/-- Every entry of the rebuilt weak registry comes from the accumulator
or the processed list. -/
theorem invalidate_loop_registry_sub (cfg : GCConfig) (l : List Nat) :
    ∀ (nw : List Nat) (s : GCState) (o : Nat),
      o ∈ (invalidate_loop cfg l nw s).objects_with_weakrefs →
      o ∈ nw ∨ o ∈ l := by
  induction l with
  | nil =>
    intro nw s o ho
    rw [invalidate_loop] at ho
    exact Or.inl ho
  | cons e rest ih =>
    intro nw s o ho
    rw [invalidate_loop] at ho
    dsimp only at ho
    revert ho
    split
    · split
      · split
        · intro ho
          rcases ih _ _ _ ho with h | h
          · rcases List.mem_cons.mp h with h | h
            · exact Or.inr (by simp [h])
            · exact Or.inl h
          · exact Or.inr (List.mem_cons_of_mem _ h)
        · intro ho
          rcases ih _ _ _ ho with h | h
          · exact Or.inl h
          · exact Or.inr (List.mem_cons_of_mem _ h)
      · intro ho
        rcases ih _ _ _ ho with h | h
        · exact Or.inl h
        · exact Or.inr (List.mem_cons_of_mem _ h)
    · intro ho
      rcases ih _ _ _ ho with h | h
      · exact Or.inl h
      · exact Or.inr (List.mem_cons_of_mem _ h)

/-- A weak slot that already reads NULL is never written by the
invalidation loop. -/
theorem invalidate_loop_zero_stays (cfg : GCConfig) (l : List Nat) :
    ∀ (nw : List Nat) (s : GCState) (obj : Nat),
      s.weakslot obj = 0 →
      (invalidate_loop cfg l nw s).weakslot obj = 0 := by
  induction l with
  | nil => intro nw s obj h; rw [invalidate_loop]; exact h
  | cons o rest ih =>
    intro nw s obj h
    rw [invalidate_loop]
    dsimp only
    split
    · split
      · split
        · exact ih _ _ _ h
        · apply ih
          by_cases ho : o = obj
          · subst ho; simp [Function.update_same]
          · simp [Function.update_noteq (Ne.symm ho), h]
      · exact ih _ _ _ h
    · exact ih _ _ _ h

/-- A surviving carrier whose slot points at a surviving target keeps its
slot byte-for-byte, and is re-registered once processed. -/
theorem invalidate_loop_live_target (cfg : GCConfig) (l : List Nat) :
    ∀ (nw : List Nat) (s : GCState) (obj : Nat),
      surviving cfg s obj = true →
      s.weakslot obj ≠ 0 →
      surviving cfg s (s.weakslot obj) = true →
      (invalidate_loop cfg l nw s).weakslot obj = s.weakslot obj ∧
      ((obj ∈ nw ∨ obj ∈ l) →
        obj ∈ (invalidate_loop cfg l nw s).objects_with_weakrefs) := by
  induction l with
  | nil =>
    intro nw s obj hs hnz ht
    rw [invalidate_loop]
    refine ⟨rfl, ?_⟩
    rintro (h | h)
    · exact h
    · cases h
  | cons o rest ih =>
    intro nw s obj hs hnz ht
    rw [invalidate_loop]
    dsimp only
    by_cases ho : surviving cfg s o = true
    · rw [if_pos ho]
      by_cases hz : s.weakslot o ≠ 0
      · rw [if_pos hz]
        by_cases hto : surviving cfg s (s.weakslot o) = true
        · rw [if_pos hto]
          obtain ⟨h1, h2⟩ := ih (o :: nw) s obj hs hnz ht
          refine ⟨h1, ?_⟩
          rintro (h | h)
          · exact h2 (Or.inl (List.mem_cons_of_mem _ h))
          · rcases List.mem_cons.mp h with h | h
            · exact h2 (Or.inl (by simp [h]))
            · exact h2 (Or.inr h)
        · rw [if_neg hto]
          have hne : o ≠ obj := fun he => hto (by rw [he]; exact ht)
          have hw : Function.update s.weakslot o 0 obj = s.weakslot obj :=
            Function.update_noteq (Ne.symm hne) _ _
          have hnz2 : Function.update s.weakslot o 0 obj ≠ 0 := by
            rw [hw]; exact hnz
          have ht2 : surviving cfg s (Function.update s.weakslot o 0 obj) =
              true := by rw [hw]; exact ht
          obtain ⟨h1, h2⟩ := ih nw
            { s with weakslot := Function.update s.weakslot o 0 } obj hs
            hnz2 ht2
          refine ⟨h1.trans hw, ?_⟩
          rintro (h | h)
          · exact h2 (Or.inl h)
          · rcases List.mem_cons.mp h with h | h
            · exact absurd (h ▸ hne) (fun hc => hc (Eq.refl _))
            · exact h2 (Or.inr h)
      · rw [if_neg hz]
        obtain ⟨h1, h2⟩ := ih nw s obj hs hnz ht
        refine ⟨h1, ?_⟩
        rintro (h | h)
        · exact h2 (Or.inl h)
        · rcases List.mem_cons.mp h with h | h
          · exact absurd (show s.weakslot obj = 0 from by
              rw [h]; exact not_not.mp hz) hnz
          · exact h2 (Or.inr h)
    · rw [if_neg ho]
      obtain ⟨h1, h2⟩ := ih nw s obj hs hnz ht
      refine ⟨h1, ?_⟩
      rintro (h | h)
      · exact h2 (Or.inl h)
      · rcases List.mem_cons.mp h with h | h
        · exact absurd (h ▸ hs) ho
        · exact h2 (Or.inr h)

/-- A surviving carrier whose slot points at a dead target has the slot
overwritten with NULL. -/
theorem invalidate_loop_dead_target (cfg : GCConfig) (l : List Nat) :
    ∀ (nw : List Nat) (s : GCState) (obj : Nat),
      obj ∈ l →
      surviving cfg s obj = true →
      s.weakslot obj ≠ 0 →
      surviving cfg s (s.weakslot obj) = false →
      (invalidate_loop cfg l nw s).weakslot obj = 0 := by
  induction l with
  | nil => intro nw s obj h; cases h
  | cons o rest ih =>
    intro nw s obj hmem hs hnz ht
    rw [invalidate_loop]
    dsimp only
    by_cases hoeq : o = obj
    · subst hoeq
      rw [if_pos hs, if_pos hnz, if_neg (by rw [ht]; simp)]
      apply invalidate_loop_zero_stays
      exact Function.update_same _ _ _
    · have hmem2 : obj ∈ rest := by
        rcases List.mem_cons.mp hmem with h | h
        · exact absurd h.symm hoeq
        · exact h
      by_cases ho : surviving cfg s o = true
      · rw [if_pos ho]
        by_cases hz : s.weakslot o ≠ 0
        · rw [if_pos hz]
          by_cases hto : surviving cfg s (s.weakslot o) = true
          · rw [if_pos hto]
            exact ih (o :: nw) s obj hmem2 hs hnz ht
          · rw [if_neg hto]
            have hw : Function.update s.weakslot o 0 obj = s.weakslot obj :=
              Function.update_noteq (Ne.symm hoeq) _ _
            apply ih nw { s with weakslot := Function.update s.weakslot o 0 }
              obj hmem2 hs
            · show Function.update s.weakslot o 0 obj ≠ 0
              rw [hw]; exact hnz
            · show surviving cfg s (Function.update s.weakslot o 0 obj) =
                false
              rw [hw]; exact ht
        · rw [if_neg hz]
          exact ih nw s obj hmem2 hs hnz ht
      · rw [if_neg ho]
        exact ih nw s obj hmem2 hs hnz ht

/-- A surviving carrier whose slot already reads NULL is dropped: it is
never appended to the rebuilt weak registry. -/
theorem invalidate_loop_null_slot (cfg : GCConfig) (l : List Nat) :
    ∀ (nw : List Nat) (s : GCState) (obj : Nat),
      s.weakslot obj = 0 →
      obj ∉ nw →
      obj ∉ (invalidate_loop cfg l nw s).objects_with_weakrefs := by
  induction l with
  | nil =>
    intro nw s obj hz hnw
    rw [invalidate_loop]
    exact hnw
  | cons o rest ih =>
    intro nw s obj hz hnw
    rw [invalidate_loop]
    dsimp only
    by_cases ho : surviving cfg s o = true
    · rw [if_pos ho]
      by_cases hz2 : s.weakslot o ≠ 0
      · rw [if_pos hz2]
        by_cases hto : surviving cfg s (s.weakslot o) = true
        · rw [if_pos hto]
          apply ih (o :: nw) s obj hz
          intro hin
          rcases List.mem_cons.mp hin with h | h
          · rw [h] at hz
            exact absurd hz hz2
          · exact hnw h
        · rw [if_neg hto]
          apply ih nw { s with weakslot := Function.update s.weakslot o 0 }
            obj ?_ hnw
          show Function.update s.weakslot o 0 obj = 0
          by_cases hoeq : o = obj
          · rw [hoeq, Function.update_same]
          · rw [Function.update_noteq (Ne.symm hoeq)]
            exact hz
      · rw [if_neg hz2]
        exact ih nw s obj hz hnw
    · rw [if_neg ho]
      exact ih nw s obj hz hnw

/-! ### Sweep: characterization of sweep_loop -/

/-- Clear GCFLAG_SURVIVING in the headers at every address of l. -/
def clear_flags (t : Nat → Nat) (l : List Nat) : Nat → Nat :=
  fun a => if a ∈ l then Nat.ldiff (t a) GCFLAG_SURVIVING else t a

theorem clear_flags_nil (t : Nat → Nat) : clear_flags t [] = t := by
  funext a
  simp [clear_flags]

/-- The kept addresses of a registry suffix, in order (flag test against
the headers of s). -/
def kept_addrs (s : GCState) (l : List Nat) : List Nat :=
  l.filter (fun a => s.tids a &&& GCFLAG_SURVIVING != 0)

/-- The freed addresses of a registry suffix, in order. -/
def dead_addrs (s : GCState) (l : List Nat) : List Nat :=
  l.filter (fun a => !(s.tids a &&& GCFLAG_SURVIVING != 0))

/-- Total payload size the sweeper subtracts for the dead addresses. -/
def dead_cost (cfg : GCConfig) (s : GCState) (l : List Nat) : Int :=
  ((dead_addrs s l).map
    (fun a => (get_size cfg s (a + cfg.size_gc_header) : Int))).sum

theorem get_size_congr {cfg : GCConfig} {s1 s2 : GCState}
    (ht : s1.tids = s2.tids) (hv : s1.varlength = s2.varlength) :
    get_size cfg s1 = get_size cfg s2 := by
  funext x
  unfold get_size get_type_id header_tid
  rw [ht, hv]

theorem kept_addrs_congr {s1 s2 : GCState} (ht : s1.tids = s2.tids)
    (l : List Nat) : kept_addrs s1 l = kept_addrs s2 l := by
  unfold kept_addrs
  rw [ht]

theorem dead_addrs_congr {s1 s2 : GCState} (ht : s1.tids = s2.tids)
    (l : List Nat) : dead_addrs s1 l = dead_addrs s2 l := by
  unfold dead_addrs
  rw [ht]

theorem dead_cost_congr {cfg : GCConfig} {s1 s2 : GCState}
    (ht : s1.tids = s2.tids) (hv : s1.varlength = s2.varlength)
    (l : List Nat) : dead_cost cfg s1 l = dead_cost cfg s2 l := by
  unfold dead_cost
  rw [dead_addrs_congr ht, get_size_congr ht hv]

theorem sweep_loop_spec (cfg : GCConfig) (l : List Nat) :
    ∀ (acc : List Nat) (s : GCState), l.Nodup →
      sweep_loop cfg l acc s =
        { s with
          tids := clear_flags s.tids (kept_addrs s l),
          address_space := acc ++ kept_addrs s l,
          cur_heap_size := s.cur_heap_size - dead_cost cfg s l,
          freed := s.freed ++ dead_addrs s l } := by
  induction l with
  | nil =>
    intro acc s _
    rw [sweep_loop]
    simp [kept_addrs, dead_addrs, dead_cost, clear_flags_nil]
  | cons a rest ih =>
    intro acc s hnd
    have hna : a ∉ rest := (List.nodup_cons.mp hnd).1
    have hndr : rest.Nodup := (List.nodup_cons.mp hnd).2
    rw [sweep_loop]
    by_cases h : (s.tids a &&& GCFLAG_SURVIVING != 0) = true
    · rw [if_pos h]
      dsimp only
      rw [ih _ _ hndr]
      have htb : ∀ b, b ≠ a → (Function.update s.tids a (Nat.ldiff (s.tids a) GCFLAG_SURVIVING)) b = s.tids b := fun b hb => Function.update_noteq hb _ _
      have hk : kept_addrs { s with tids := Function.update s.tids a (Nat.ldiff (s.tids a) GCFLAG_SURVIVING) } rest = kept_addrs s rest := by
        apply List.filter_congr
        intro b hb
        have hbne : b ≠ a := fun he => hna (he ▸ hb)
        show (Function.update s.tids a (Nat.ldiff (s.tids a) GCFLAG_SURVIVING) b &&& GCFLAG_SURVIVING != 0) = _
        rw [htb b hbne]
      have hdead : dead_addrs { s with tids := Function.update s.tids a (Nat.ldiff (s.tids a) GCFLAG_SURVIVING) } rest = dead_addrs s rest := by
        apply List.filter_congr
        intro b hb
        have hbne : b ≠ a := fun he => hna (he ▸ hb)
        show (!(Function.update s.tids a (Nat.ldiff (s.tids a) GCFLAG_SURVIVING) b &&& GCFLAG_SURVIVING != 0)) = _
        rw [htb b hbne]
      have hcost : dead_cost cfg { s with tids := Function.update s.tids a (Nat.ldiff (s.tids a) GCFLAG_SURVIVING) } rest = dead_cost cfg s rest := by
        unfold dead_cost
        rw [hdead]
        refine congrArg List.sum (List.map_congr_left ?_)
        intro b hb
        have hbmem : b ∈ rest := List.mem_of_mem_filter hb
        have hbne : b ≠ a := fun he => hna (he ▸ hbmem)
        unfold get_size get_type_id header_tid
        dsimp only
        rw [Nat.add_sub_cancel, htb b hbne]
      have hkc : kept_addrs s (a :: rest) = a :: kept_addrs s rest :=
        List.filter_cons_of_pos h
      have hdc : dead_addrs s (a :: rest) = dead_addrs s rest :=
        List.filter_cons_of_neg (by rw [h]; simp)
      have hcostc : dead_cost cfg s (a :: rest) = dead_cost cfg s rest := by
        unfold dead_cost
        rw [hdc]
      have hcls : clear_flags (Function.update s.tids a (Nat.ldiff (s.tids a) GCFLAG_SURVIVING)) (kept_addrs s rest) = clear_flags s.tids (a :: kept_addrs s rest) := by
        funext b
        by_cases hb : b = a
        · subst hb
          have hnin : b ∉ kept_addrs s rest :=
            fun hin => hna (List.mem_of_mem_filter hin)
          simp only [clear_flags]
          rw [if_neg hnin, if_pos (List.mem_cons_self b _)]
          exact Function.update_same _ _ _
        · simp only [clear_flags]
          by_cases hbk : b ∈ kept_addrs s rest
          · rw [if_pos hbk, if_pos (List.mem_cons_of_mem _ hbk), htb b hb]
          · rw [if_neg hbk, if_neg (by rw [List.mem_cons]; rintro (hc | hc); exact hb hc; exact hbk hc), htb b hb]
      have happ : acc ++ a :: kept_addrs s rest = acc ++ [a] ++ kept_addrs s rest := by simp
      rw [hk, hcost, hdead, hkc, hcostc, hdc, hcls, happ]
    · rw [if_neg h]
      dsimp only
      rw [ih _ _ hndr]
      unfold raw_free
      have hkc : kept_addrs s (a :: rest) = kept_addrs s rest :=
        List.filter_cons_of_neg h
      have hdc : dead_addrs s (a :: rest) = a :: dead_addrs s rest :=
        List.filter_cons_of_pos (by rw [Bool.not_eq_true] at h; rw [h]; simp)
      have hcostc : dead_cost cfg s (a :: rest) = (get_size cfg s (a + cfg.size_gc_header) : Int) + dead_cost cfg s rest := by
        unfold dead_cost
        rw [hdc, List.map_cons, List.sum_cons]
      rw [hkc, hdc, hcostc]
      have hsub : s.cur_heap_size - (get_size cfg s (a + cfg.size_gc_header) : Int) - dead_cost cfg s rest = s.cur_heap_size - ((get_size cfg s (a + cfg.size_gc_header) : Int) + dead_cost cfg s rest) := sub_sub _ _ _
      have happ : s.freed ++ a :: dead_addrs s rest = s.freed ++ [a] ++ dead_addrs s rest := by simp
      rw [← hsub, happ]
      rfl

/-- sweep characterized on the whole registry. -/
theorem sweep_spec (cfg : GCConfig) (s : GCState)
    (hnd : s.address_space.Nodup) :
    sweep cfg s =
      { s with
        tids := clear_flags s.tids (kept_addrs s s.address_space),
        address_space := kept_addrs s s.address_space,
        cur_heap_size := s.cur_heap_size - dead_cost cfg s s.address_space,
        freed := s.freed ++ dead_addrs s s.address_space } := by
  unfold sweep
  rw [sweep_loop_spec cfg _ _ _ hnd]
  rfl

/-! ### Reachability and the mark phase -/

/-- Object pointers of a list of start addresses. -/
def objptrs (cfg : GCConfig) (l : List Nat) : List Nat :=
  l.map (fun a => a + cfg.size_gc_header)

/-- One managed-reference edge of the heap graph. -/
def Edge (s : GCState) (a b : Nat) : Prop := b ∈ s.refs a

/-- Transitive reachability along managed references. -/
def Reaches (s : GCState) : Nat → Nat → Prop :=
  Relation.ReflTransGen (Edge s)

theorem reaches_congr {s1 s2 : GCState} (h : s1.refs = s2.refs) :
    Reaches s1 = Reaches s2 := by
  unfold Reaches Edge
  rw [h]

/-- Number of not-yet-marked object pointers of O. -/
def flag_count (cfg : GCConfig) (s : GCState) (O : List Nat) : Nat :=
  (O.filter (fun p => !(surviving cfg s p))).length

/-- trace_mark with the reference list made explicit (trace_mark cfg addr
p is trace_fold cfg (p.1.refs addr) p). -/
def trace_fold (cfg : GCConfig) (l : List Nat) (p : GCState × List Nat) :
    GCState × List Nat :=
  l.foldl (fun q c => mark_surviving_callback cfg c q) p

theorem trace_mark_eq_fold (cfg : GCConfig) (addr : Nat)
    (p : GCState × List Nat) :
    trace_mark cfg addr p = trace_fold cfg (p.1.refs addr) p := rfl

/-- Effect of set_surviving on the flag of an arbitrary object pointer,
assuming the written object pointer lies strictly past the header. -/
theorem surviving_set (cfg : GCConfig) {c : Nat}
    (hc : cfg.size_gc_header < c) (s : GCState) (x : Nat) :
    surviving cfg (set_surviving cfg c s) x = true ↔
      (surviving cfg s x = true ∨ x = c) := by
  rw [surviving_eq_testBit, surviving_eq_testBit]
  unfold set_surviving
  dsimp only
  by_cases h : x - cfg.size_gc_header = c - cfg.size_gc_header
  · have hx : x = c := by omega
    subst hx
    rw [Function.update_same]
    unfold header_tid
    rw [testBit_or_flag]
    simp
  · rw [Function.update_noteq h]
    have hxc : x ≠ c := fun he => h (by rw [he])
    simp [hxc]

theorem surviving_set_self (cfg : GCConfig) {c : Nat}
    (hc : cfg.size_gc_header < c) (s : GCState) :
    surviving cfg (set_surviving cfg c s) c = true :=
  (surviving_set cfg hc s c).mpr (Or.inr (Eq.refl c))

theorem surviving_set_mono (cfg : GCConfig) {c : Nat}
    (hc : cfg.size_gc_header < c) (s : GCState) {x : Nat}
    (hx : surviving cfg s x = true) :
    surviving cfg (set_surviving cfg c s) x = true :=
  (surviving_set cfg hc s x).mpr (Or.inl hx)

theorem length_filter_le_of_impl {α : Type} {p q : α → Bool} :
    ∀ {l : List α}, (∀ a ∈ l, p a = true → q a = true) →
      (l.filter p).length ≤ (l.filter q).length := by
  intro l
  induction l with
  | nil => intro _; exact Nat.le.refl
  | cons a l ih =>
    intro h
    have hl := ih (fun b hb => h b (List.mem_cons_of_mem _ hb))
    by_cases hp : p a = true
    · rw [List.filter_cons_of_pos hp,
        List.filter_cons_of_pos (h a (List.mem_cons_self a l) hp)]
      exact Nat.succ_le_succ hl
    · rw [List.filter_cons_of_neg hp]
      by_cases hq : q a = true
      · rw [List.filter_cons_of_pos hq]
        exact Nat.le_succ_of_le hl
      · rw [List.filter_cons_of_neg hq]
        exact hl

theorem length_filter_lt_of_flip {α : Type} [DecidableEq α]
    {p q : α → Bool} {b : α} :
    ∀ {l : List α}, (∀ a ∈ l, p a = true → q a = true) →
      b ∈ l → q b = true → p b = false →
      (l.filter p).length < (l.filter q).length := by
  intro l
  induction l with
  | nil => intro _ hb; cases hb
  | cons a l ih =>
    intro h hb hq hp
    have hmono := fun c hc => h c (List.mem_cons_of_mem _ hc)
    by_cases hab : a = b
    · subst hab
      rw [List.filter_cons_of_pos hq, List.filter_cons_of_neg (by rw [hp]; simp)]
      exact Nat.lt_succ_of_le (length_filter_le_of_impl hmono)
    · have hbl : b ∈ l := by
        rcases List.mem_cons.mp hb with h1 | h1
        · exact absurd h1.symm hab
        · exact h1
      have hstrict := ih hmono hbl hq hp
      by_cases hpa : p a = true
      · rw [List.filter_cons_of_pos hpa,
          List.filter_cons_of_pos (h a (List.mem_cons_self a l) hpa)]
        exact Nat.succ_lt_succ hstrict
      · rw [List.filter_cons_of_neg hpa]
        by_cases hqa : q a = true
        · rw [List.filter_cons_of_pos hqa]
          exact Nat.lt_succ_of_lt hstrict
        · rw [List.filter_cons_of_neg hqa]
          exact hstrict

theorem flag_count_set_lt (cfg : GCConfig) (O : List Nat)
    (HO : ∀ p ∈ O, cfg.size_gc_header < p) {c : Nat} (hcO : c ∈ O)
    (s : GCState) (hc : surviving cfg s c = false) :
    flag_count cfg (set_surviving cfg c s) O < flag_count cfg s O := by
  unfold flag_count
  apply length_filter_lt_of_flip (b := c)
  · intro a _ ha
    rw [Bool.not_eq_true'] at ha ⊢
    by_contra hno
    rw [Bool.not_eq_false] at hno
    have hmono := surviving_set_mono cfg (HO c hcO) s hno
    rw [ha] at hmono
    simp at hmono
  · exact hcO
  · rw [Bool.not_eq_true', hc]
  · rw [Bool.not_eq_false']
    exact surviving_set_self cfg (HO c hcO) s

theorem flag_count_mono_set (cfg : GCConfig) (O : List Nat)
    (HO : ∀ p ∈ O, cfg.size_gc_header < p) {c : Nat} (hcO : c ∈ O)
    (s : GCState) :
    flag_count cfg (set_surviving cfg c s) O ≤ flag_count cfg s O := by
  unfold flag_count
  apply length_filter_le_of_impl
  intro a _ ha
  rw [Bool.not_eq_true'] at ha ⊢
  by_contra hno
  rw [Bool.not_eq_false] at hno
  have hmono := surviving_set_mono cfg (HO c hcO) s hno
  rw [ha] at hmono
  simp at hmono

/-- Effect of tracing one object: the callback flags and pushes exactly
the children that were unflagged; every child ends up flagged; the
unmarked count drops by at least the number of pushes. -/
theorem trace_fold_spec (cfg : GCConfig) (O : List Nat)
    (HO : ∀ p ∈ O, cfg.size_gc_header < p) :
    ∀ (l : List Nat), (∀ c ∈ l, c ∈ O) →
    ∀ (s : GCState) (st : List Nat),
      ∃ pushed : List Nat,
        (trace_fold cfg l (s, st)).2 = pushed ++ st ∧
        (∀ c ∈ pushed, c ∈ l) ∧
        (∀ x, surviving cfg (trace_fold cfg l (s, st)).1 x = true ↔
          (surviving cfg s x = true ∨ x ∈ pushed)) ∧
        (∀ c ∈ l, surviving cfg (trace_fold cfg l (s, st)).1 c = true) ∧
        flag_count cfg (trace_fold cfg l (s, st)).1 O + pushed.length ≤
          flag_count cfg s O := by
  intro l
  induction l with
  | nil =>
    intro _ s st
    refine ⟨[], rfl, by simp, ?_, by simp, by simp [trace_fold]⟩
    intro x
    simp [trace_fold]
  | cons c l ih =>
    intro hl s st
    have hcO : c ∈ O := hl c (List.mem_cons_self c l)
    have hlO : ∀ d ∈ l, d ∈ O := fun d hd => hl d (List.mem_cons_of_mem _ hd)
    by_cases hc : surviving cfg s c = true
    · have heq : trace_fold cfg (c :: l) (s, st) = trace_fold cfg l (s, st) := by
        show trace_fold cfg l (mark_surviving_callback cfg c (s, st)) = _
        unfold mark_surviving_callback
        rw [if_pos hc]
      obtain ⟨pushed, h1, h2, h3, h4, h5⟩ := ih hlO s st
      refine ⟨pushed, by rw [heq]; exact h1,
        fun d hd => List.mem_cons_of_mem _ (h2 d hd),
        by rw [heq]; exact h3, ?_, by rw [heq]; exact h5⟩
      intro d hd
      rw [heq]
      rcases List.mem_cons.mp hd with hd1 | hd1
      · exact (h3 d).mpr (Or.inl (hd1 ▸ hc))
      · exact h4 d hd1
    · have hcf : surviving cfg s c = false := by
        cases hb : surviving cfg s c
        · rfl
        · exact absurd hb hc
      have heq : trace_fold cfg (c :: l) (s, st) =
          trace_fold cfg l (set_surviving cfg c s, c :: st) := by
        show trace_fold cfg l (mark_surviving_callback cfg c (s, st)) = _
        unfold mark_surviving_callback
        rw [if_neg hc]
      obtain ⟨pushed, h1, h2, h3, h4, h5⟩ :=
        ih hlO (set_surviving cfg c s) (c :: st)
      refine ⟨pushed ++ [c], ?_, ?_, ?_, ?_, ?_⟩
      · rw [heq, h1]
        simp
      · intro d hd
        rcases List.mem_append.mp hd with hd1 | hd1
        · exact List.mem_cons_of_mem _ (h2 d hd1)
        · rw [List.mem_singleton.mp hd1]
          exact List.mem_cons_self c l
      · intro x
        rw [heq, h3 x, surviving_set cfg (HO c hcO) s x]
        constructor
        · rintro ((hx | hx) | hx)
          · exact Or.inl hx
          · exact Or.inr (by simp [hx])
          · exact Or.inr (by simp [hx])
        · rintro (hx | hx)
          · exact Or.inl (Or.inl hx)
          · rcases List.mem_append.mp hx with hx1 | hx1
            · exact Or.inr hx1
            · exact Or.inl (Or.inr (List.mem_singleton.mp hx1))
      · intro d hd
        rw [heq]
        rcases List.mem_cons.mp hd with hd1 | hd1
        · exact (h3 d).mpr (Or.inl (hd1 ▸ surviving_set_self cfg (HO c hcO) s))
        · exact h4 d hd1
      · have hlt := flag_count_set_lt cfg O HO hcO s hcf
        rw [heq, List.length_append, List.length_singleton]
        omega

/-- Closed marked sets absorb everything reachable from a marked node. -/
theorem flagged_of_reaches {cfg : GCConfig} {sR s : GCState}
    (hclosed : ∀ p, surviving cfg sR p = true →
      ∀ c ∈ s.refs p, surviving cfg sR c = true)
    {z x : Nat} (hz : surviving cfg sR z = true) (hr : Reaches s z x) :
    surviving cfg sR x = true := by
  induction hr with
  | refl => exact hz
  | tail hab hbc ih => exact hclosed _ ih _ hbc

/-- Main specification of the marking loop: with enough fuel (which the
measure stack length + twice the unmarked count provides), the loop
flags exactly the previously flagged objects plus everything reachable
from the stack, and the flagged set is closed under references. -/
theorem mark_loop_spec (cfg : GCConfig) (O : List Nat)
    (HO : ∀ p ∈ O, cfg.size_gc_header < p) :
    ∀ (fuel : Nat) (s : GCState) (stack : List Nat),
      (∀ p ∈ O, ∀ c ∈ s.refs p, c ∈ O) →
      (∀ p ∈ stack, p ∈ O) →
      (∀ p ∈ stack, surviving cfg s p = true) →
      (∀ p, surviving cfg s p = true →
        p ∈ stack ∨ ∀ c ∈ s.refs p, surviving cfg s c = true) →
      stack.length + 2 * flag_count cfg s O ≤ fuel →
      ((∀ x, surviving cfg (mark_loop cfg fuel s stack) x = true ↔
          (surviving cfg s x = true ∨ ∃ z ∈ stack, Reaches s z x)) ∧
       (∀ p, surviving cfg (mark_loop cfg fuel s stack) p = true →
          ∀ c ∈ s.refs p, surviving cfg (mark_loop cfg fuel s stack) c = true)) := by
  intro fuel
  induction fuel with
  | zero =>
    intro s stack hcl hstO hstF hinv hfuel
    have hstack : stack = [] := by
      cases stack with
      | nil => rfl
      | cons a t => rw [List.length_cons] at hfuel; omega
    subst hstack
    rw [mark_loop]
    constructor
    · intro x
      constructor
      · intro hx
        exact Or.inl hx
      · rintro (hx | ⟨z, hz, _⟩)
        · exact hx
        · cases hz
    · intro p hp c hc
      rcases hinv p hp with h | h
      · cases h
      · exact h c hc
  | succ fuel ih =>
    intro s stack hcl hstO hstF hinv hfuel
    cases stack with
    | nil =>
      rw [mark_loop]
      constructor
      · intro x
        constructor
        · intro hx
          exact Or.inl hx
        · rintro (hx | ⟨z, hz, _⟩)
          · exact hx
          · cases hz
      · intro p hp c hc
        rcases hinv p hp with h | h
        · cases h
        · exact h c hc
    | cons addr rest =>
      have haddrO : addr ∈ O := hstO addr (List.mem_cons_self addr rest)
      have hlsub : ∀ c ∈ s.refs addr, c ∈ O := hcl addr haddrO
      obtain ⟨pushed, h1, h2, h3, h4, h5⟩ :=
        trace_fold_spec cfg O HO (s.refs addr) hlsub s rest
      have hml : mark_loop cfg (fuel + 1) s (addr :: rest) =
          mark_loop cfg fuel (trace_fold cfg (s.refs addr) (s, rest)).1
            (trace_fold cfg (s.refs addr) (s, rest)).2 := rfl
      rw [h1] at hml
      have heqet : EqExceptTids s (trace_fold cfg (s.refs addr) (s, rest)).1 :=
        eqet_foldl_callback cfg (s.refs addr) (s, rest)
      have hrefs : (trace_fold cfg (s.refs addr) (s, rest)).1.refs = s.refs :=
        heqet.refs
      have hflag : ∀ p ∈ rest, surviving cfg
          (trace_fold cfg (s.refs addr) (s, rest)).1 p = true :=
        fun p hp => (h3 p).mpr (Or.inl (hstF p (List.mem_cons_of_mem _ hp)))
      have haddrflag : surviving cfg
          (trace_fold cfg (s.refs addr) (s, rest)).1 addr = true :=
        (h3 addr).mpr (Or.inl (hstF addr (List.mem_cons_self addr rest)))
      obtain ⟨ihiff, ihclosed⟩ := ih (trace_fold cfg (s.refs addr) (s, rest)).1
        (pushed ++ rest)
        (by rw [hrefs]; exact hcl)
        (by
          intro p hp
          rcases List.mem_append.mp hp with hp1 | hp1
          · exact hlsub p (h2 p hp1)
          · exact hstO p (List.mem_cons_of_mem _ hp1))
        (by
          intro p hp
          rcases List.mem_append.mp hp with hp1 | hp1
          · exact (h3 p).mpr (Or.inr hp1)
          · exact hflag p hp1)
        (by
          intro p hp
          rcases (h3 p).mp hp with hp1 | hp1
          · rcases hinv p hp1 with hp2 | hp2
            · rcases List.mem_cons.mp hp2 with hp3 | hp3
              · subst hp3
                refine Or.inr ?_
                intro c hc
                rw [hrefs] at hc
                exact h4 c hc
              · exact Or.inl (List.mem_append_right _ hp3)
            · refine Or.inr ?_
              intro c hc
              rw [hrefs] at hc
              exact (h3 c).mpr (Or.inl (hp2 c hc))
          · exact Or.inl (List.mem_append_left _ hp1))
        (by
          rw [List.length_append]
          rw [List.length_cons] at hfuel
          omega)
      have hreq : Reaches (trace_fold cfg (s.refs addr) (s, rest)).1 =
          Reaches s := reaches_congr hrefs
      have hmono : ∀ x, surviving cfg s x = true →
          surviving cfg (mark_loop cfg (fuel + 1) s (addr :: rest)) x = true := by
        intro x hx
        rw [hml]
        exact (ihiff x).mpr (Or.inl ((h3 x).mpr (Or.inl hx)))
      have hRclosed : ∀ p, surviving cfg
          (mark_loop cfg (fuel + 1) s (addr :: rest)) p = true →
          ∀ c ∈ s.refs p, surviving cfg
            (mark_loop cfg (fuel + 1) s (addr :: rest)) c = true := by
        intro p hp c hc
        rw [hml] at hp ⊢
        rw [← hrefs] at hc
        exact ihclosed p hp c hc
      refine ⟨?_, hRclosed⟩
      intro x
      constructor
      · intro hx
        rw [hml] at hx
        rcases (ihiff x).mp hx with hx1 | ⟨z, hz, hr⟩
        · rcases (h3 x).mp hx1 with hx2 | hx2
          · exact Or.inl hx2
          · refine Or.inr ⟨addr, List.mem_cons_self addr rest, ?_⟩
            exact Relation.ReflTransGen.single (h2 x hx2)
        · rw [hreq] at hr
          rcases List.mem_append.mp hz with hz1 | hz1
          · refine Or.inr ⟨addr, List.mem_cons_self addr rest, ?_⟩
            exact Relation.ReflTransGen.head (h2 z hz1) hr
          · exact Or.inr ⟨z, List.mem_cons_of_mem _ hz1, hr⟩
      · rintro (hx | ⟨z, hz, hr⟩)
        · exact hmono x hx
        · rcases List.mem_cons.mp hz with hz1 | hz1
          · subst hz1
            refine flagged_of_reaches hRclosed ?_ hr
            rw [hml]
            exact (ihiff z).mpr (Or.inl haddrflag)
          · rw [hml]
            refine (ihiff x).mpr (Or.inr ⟨z, List.mem_append_right _ hz1, ?_⟩)
            rw [hreq]
            exact hr

/-- Specification of one mark_recursive call on a closed heap: it flags
exactly the old flagged set plus everything reachable from the root. -/
theorem mark_recursive_spec (cfg : GCConfig) (O : List Nat)
    (HO : ∀ p ∈ O, cfg.size_gc_header < p) (root : Nat) (s : GCState)
    (hcl : ∀ p ∈ O, ∀ c ∈ s.refs p, c ∈ O)
    (hrootO : root ∈ O)
    (hflcl : ∀ p, surviving cfg s p = true →
      ∀ c ∈ s.refs p, surviving cfg s c = true)
    (hOlen : O.length ≤ s.address_space.length) :
    (∀ x, surviving cfg (mark_recursive cfg root s) x = true ↔
      (surviving cfg s x = true ∨ Reaches s root x)) ∧
    (∀ p, surviving cfg (mark_recursive cfg root s) p = true →
      ∀ c ∈ s.refs p, surviving cfg (mark_recursive cfg root s) c = true) := by
  have hrefs1 : (set_surviving cfg root s).refs = s.refs := rfl
  have hroot1 : surviving cfg (set_surviving cfg root s) root = true :=
    surviving_set_self cfg (HO root hrootO) s
  obtain ⟨hiff, hclosed⟩ := mark_loop_spec cfg O HO
    (2 * s.address_space.length + 1) (set_surviving cfg root s) [root]
    hcl
    (by intro p hp; rw [List.mem_singleton.mp hp]; exact hrootO)
    (by intro p hp; rw [List.mem_singleton.mp hp]; exact hroot1)
    (by
      intro p hp
      rcases (surviving_set cfg (HO root hrootO) s p).mp hp with h | h
      · refine Or.inr ?_
        intro c hc
        exact surviving_set_mono cfg (HO root hrootO) s (hflcl p h c hc)
      · exact Or.inl (by rw [h]; exact List.mem_singleton.mpr (Eq.refl root)))
    (by
      have hfc : flag_count cfg (set_surviving cfg root s) O ≤ O.length :=
        List.length_filter_le _ O
      rw [List.length_singleton]
      omega)
  have hreq : Reaches (set_surviving cfg root s) = Reaches s :=
    reaches_congr hrefs1
  constructor
  · intro x
    rw [show mark_recursive cfg root s = mark_loop cfg
        (2 * s.address_space.length + 1) (set_surviving cfg root s) [root]
      from rfl]
    rw [hiff x, surviving_set cfg (HO root hrootO) s x]
    constructor
    · rintro ((hx | hx) | ⟨z, hz, hr⟩)
      · exact Or.inl hx
      · exact Or.inr (hx ▸ Relation.ReflTransGen.refl)
      · rw [hreq] at hr
        rw [List.mem_singleton.mp hz] at hr
        exact Or.inr hr
    · rintro (hx | hx)
      · exact Or.inl (Or.inl hx)
      · refine Or.inr ⟨root, List.mem_singleton.mpr (Eq.refl root), ?_⟩
        rw [hreq]
        exact hx
  · intro p hp c hc
    exact hclosed p hp c hc

/-- Specification of the whole mark phase. -/
theorem mark_spec (cfg : GCConfig) (O : List Nat)
    (HO : ∀ p ∈ O, cfg.size_gc_header < p) :
    ∀ (roots : List Nat) (s : GCState),
      (∀ p ∈ O, ∀ c ∈ s.refs p, c ∈ O) →
      (∀ r ∈ roots, r ∈ O) →
      (∀ p, surviving cfg s p = true →
        ∀ c ∈ s.refs p, surviving cfg s c = true) →
      O.length ≤ s.address_space.length →
      ((∀ x, surviving cfg (mark cfg roots s) x = true ↔
          (surviving cfg s x = true ∨ ∃ r ∈ roots, Reaches s r x)) ∧
       (∀ p, surviving cfg (mark cfg roots s) p = true →
          ∀ c ∈ s.refs p, surviving cfg (mark cfg roots s) c = true)) := by
  intro roots
  induction roots with
  | nil =>
    intro s hcl _ hflcl _
    constructor
    · intro x
      simp [mark]
    · intro p hp c hc
      exact hflcl p hp c hc
  | cons r roots ih =>
    intro s hcl hrO hflcl hOlen
    have hrootO : r ∈ O := hrO r (List.mem_cons_self r roots)
    obtain ⟨hiff1, hcl1⟩ :=
      mark_recursive_spec cfg O HO r s hcl hrootO hflcl hOlen
    have heqet : EqExceptTids s (mark_recursive cfg r s) :=
      eqet_mark_recursive cfg r s
    have hrefs1 : (mark_recursive cfg r s).refs = s.refs := heqet.refs
    have hm : mark cfg (r :: roots) s =
        mark cfg roots (mark_recursive cfg r s) := rfl
    obtain ⟨hiff2, hcl2⟩ := ih (mark_recursive cfg r s)
      (by rw [hrefs1]; exact hcl)
      (fun q hq => hrO q (List.mem_cons_of_mem _ hq))
      (by
        intro p hp c hc
        rw [hrefs1] at hc
        exact hcl1 p hp c hc)
      (by rw [heqet.address_space]; exact hOlen)
    have hreq : Reaches (mark_recursive cfg r s) = Reaches s :=
      reaches_congr hrefs1
    constructor
    · intro x
      rw [hm, hiff2 x, hiff1 x]
      constructor
      · rintro ((hx | hx) | ⟨z, hz, hr⟩)
        · exact Or.inl hx
        · exact Or.inr ⟨r, List.mem_cons_self r roots, hx⟩
        · rw [hreq] at hr
          exact Or.inr ⟨z, List.mem_cons_of_mem _ hz, hr⟩
      · rintro (hx | ⟨z, hz, hr⟩)
        · exact Or.inl (Or.inl hx)
        · rcases List.mem_cons.mp hz with hz1 | hz1
          · exact Or.inl (Or.inr (hz1 ▸ hr))
          · refine Or.inr ⟨z, hz1, ?_⟩
            rw [hreq]
            exact hr
    · intro p hp c hc
      rw [hm] at hp ⊢
      rw [← hrefs1] at hc
      exact hcl2 p hp c hc

/-! ### Frame lemmas for sweep and the collect phases -/

theorem sweep_loop_frame (cfg : GCConfig) (l : List Nat) :
    ∀ (acc : List Nat) (s : GCState),
      (sweep_loop cfg l acc s).refs = s.refs ∧
      (sweep_loop cfg l acc s).weakslot = s.weakslot ∧
      (sweep_loop cfg l acc s).varlength = s.varlength ∧
      (sweep_loop cfg l acc s).objects_with_weakrefs =
        s.objects_with_weakrefs ∧
      (sweep_loop cfg l acc s).objects_with_finalizers =
        s.objects_with_finalizers ∧
      (sweep_loop cfg l acc s).run_finalizers = s.run_finalizers ∧
      (sweep_loop cfg l acc s).collection_lock = s.collection_lock ∧
      (sweep_loop cfg l acc s).heap_growth_factor = s.heap_growth_factor ∧
      (sweep_loop cfg l acc s).initial_heap_size = s.initial_heap_size ∧
      (sweep_loop cfg l acc s).prev_heap_size = s.prev_heap_size ∧
      (sweep_loop cfg l acc s).next_addr = s.next_addr ∧
      (sweep_loop cfg l acc s).alloc_cost = s.alloc_cost ∧
      (sweep_loop cfg l acc s).collections_started =
        s.collections_started := by
  induction l with
  | nil =>
    intro acc s
    exact ⟨rfl, rfl, rfl, rfl, rfl, rfl, rfl, rfl, rfl, rfl, rfl, rfl, rfl⟩
  | cons a rest ih =>
    intro acc s
    rw [sweep_loop]
    dsimp only
    split
    · exact ih _ _
    · exact ih _ _

theorem revive_fold_eq_mark (cfg : GCConfig) (l : List Nat) (s : GCState) :
    revive_fold cfg l s = mark cfg l s := rfl

/-- Projections of deal_with_objects_with_finalizers: the finalizer
registry is replaced by the surviving entries, the scheduled entries are
appended to the deferred-run queue, and everything else except the
headers is untouched. -/
theorem deal_with_props (cfg : GCConfig) (s : GCState) :
    (deal_with_objects_with_finalizers cfg s).objects_with_finalizers =
      kept_finalizer_entries cfg s ∧
    (deal_with_objects_with_finalizers cfg s).run_finalizers =
      s.run_finalizers ++ scheduled_entries cfg s ∧
    (deal_with_objects_with_finalizers cfg s).refs = s.refs ∧
    (deal_with_objects_with_finalizers cfg s).weakslot = s.weakslot ∧
    (deal_with_objects_with_finalizers cfg s).varlength = s.varlength ∧
    (deal_with_objects_with_finalizers cfg s).address_space =
      s.address_space ∧
    (deal_with_objects_with_finalizers cfg s).objects_with_weakrefs =
      s.objects_with_weakrefs ∧
    (deal_with_objects_with_finalizers cfg s).collection_lock =
      s.collection_lock ∧
    (deal_with_objects_with_finalizers cfg s).cur_heap_size =
      s.cur_heap_size ∧
    (deal_with_objects_with_finalizers cfg s).prev_heap_size =
      s.prev_heap_size ∧
    (deal_with_objects_with_finalizers cfg s).freed = s.freed ∧
    (deal_with_objects_with_finalizers cfg s).next_addr = s.next_addr ∧
    (deal_with_objects_with_finalizers cfg s).alloc_cost = s.alloc_cost ∧
    (deal_with_objects_with_finalizers cfg s).collections_started =
      s.collections_started ∧
    (deal_with_objects_with_finalizers cfg s).heap_growth_factor =
      s.heap_growth_factor ∧
    (deal_with_objects_with_finalizers cfg s).initial_heap_size =
      s.initial_heap_size := by
  rw [deal_with_eq]
  have heq := eqet_fold_mark_recursive cfg (dead_finalizer_objs cfg s)
    (sched_state cfg s)
  refine ⟨rfl, ?_, ?_, ?_, ?_, ?_, ?_, ?_, ?_, ?_, ?_, ?_, ?_, ?_, ?_, ?_⟩
  · show (revive_fold cfg (dead_finalizer_objs cfg s)
      (sched_state cfg s)).run_finalizers = _
    rw [revive_fold, heq.run_finalizers]
    rfl
  · show (revive_fold cfg _ _).refs = _
    rw [revive_fold, heq.refs]
    rfl
  · show (revive_fold cfg _ _).weakslot = _
    rw [revive_fold, heq.weakslot]
    rfl
  · show (revive_fold cfg _ _).varlength = _
    rw [revive_fold, heq.varlength]
    rfl
  · show (revive_fold cfg _ _).address_space = _
    rw [revive_fold, heq.address_space]
    rfl
  · show (revive_fold cfg _ _).objects_with_weakrefs = _
    rw [revive_fold, heq.objects_with_weakrefs]
    rfl
  · show (revive_fold cfg _ _).collection_lock = _
    rw [revive_fold, heq.collection_lock]
    rfl
  · show (revive_fold cfg _ _).cur_heap_size = _
    rw [revive_fold, heq.cur_heap_size]
    rfl
  · show (revive_fold cfg _ _).prev_heap_size = _
    rw [revive_fold, heq.prev_heap_size]
    rfl
  · show (revive_fold cfg _ _).freed = _
    rw [revive_fold, heq.freed]
    rfl
  · show (revive_fold cfg _ _).next_addr = _
    rw [revive_fold, heq.next_addr]
    rfl
  · show (revive_fold cfg _ _).alloc_cost = _
    rw [revive_fold, heq.alloc_cost]
    rfl
  · show (revive_fold cfg _ _).collections_started = _
    rw [revive_fold, heq.collections_started]
    rfl
  · show (revive_fold cfg _ _).heap_growth_factor = _
    rw [revive_fold, heq.heap_growth_factor]
    rfl
  · show (revive_fold cfg _ _).initial_heap_size = _
    rw [revive_fold, heq.initial_heap_size]
    rfl

theorem sweep_lock (cfg : GCConfig) (t : GCState) :
    (sweep cfg t).collection_lock = t.collection_lock := by
  unfold sweep
  obtain ⟨-, -, -, -, -, -, h, -⟩ :=
    sweep_loop_frame cfg t.address_space [] { t with address_space := [] }
  exact h

theorem sweep_run (cfg : GCConfig) (t : GCState) :
    (sweep cfg t).run_finalizers = t.run_finalizers := by
  unfold sweep
  obtain ⟨-, -, -, -, -, h, -⟩ :=
    sweep_loop_frame cfg t.address_space [] { t with address_space := [] }
  exact h

theorem sweep_fins (cfg : GCConfig) (t : GCState) :
    (sweep cfg t).objects_with_finalizers = t.objects_with_finalizers := by
  unfold sweep
  obtain ⟨-, -, -, -, h, -⟩ :=
    sweep_loop_frame cfg t.address_space [] { t with address_space := [] }
  exact h

theorem sweep_weakreg (cfg : GCConfig) (t : GCState) :
    (sweep cfg t).objects_with_weakrefs = t.objects_with_weakrefs := by
  unfold sweep
  obtain ⟨-, -, -, h, -⟩ :=
    sweep_loop_frame cfg t.address_space [] { t with address_space := [] }
  exact h

theorem sweep_weakslot (cfg : GCConfig) (t : GCState) :
    (sweep cfg t).weakslot = t.weakslot := by
  unfold sweep
  obtain ⟨-, h, -⟩ :=
    sweep_loop_frame cfg t.address_space [] { t with address_space := [] }
  exact h

theorem sweep_refs (cfg : GCConfig) (t : GCState) :
    (sweep cfg t).refs = t.refs := by
  unfold sweep
  obtain ⟨h, -⟩ :=
    sweep_loop_frame cfg t.address_space [] { t with address_space := [] }
  exact h

theorem sweep_varlength (cfg : GCConfig) (t : GCState) :
    (sweep cfg t).varlength = t.varlength := by
  unfold sweep
  obtain ⟨-, -, h, -⟩ :=
    sweep_loop_frame cfg t.address_space [] { t with address_space := [] }
  exact h

theorem sweep_count (cfg : GCConfig) (t : GCState) :
    (sweep cfg t).collections_started = t.collections_started := by
  unfold sweep
  obtain ⟨-, -, -, -, -, -, -, -, -, -, -, -, h⟩ :=
    sweep_loop_frame cfg t.address_space [] { t with address_space := [] }
  exact h

theorem sweep_next (cfg : GCConfig) (t : GCState) :
    (sweep cfg t).next_addr = t.next_addr := by
  unfold sweep
  obtain ⟨-, -, -, -, -, -, -, -, -, -, h, -⟩ :=
    sweep_loop_frame cfg t.address_space [] { t with address_space := [] }
  exact h

theorem sweep_prev (cfg : GCConfig) (t : GCState) :
    (sweep cfg t).prev_heap_size = t.prev_heap_size := by
  unfold sweep
  obtain ⟨-, -, -, -, -, -, -, -, -, h, -⟩ :=
    sweep_loop_frame cfg t.address_space [] { t with address_space := [] }
  exact h

theorem sweep_factor (cfg : GCConfig) (t : GCState) :
    (sweep cfg t).heap_growth_factor = t.heap_growth_factor := by
  unfold sweep
  obtain ⟨-, -, -, -, -, -, -, h, -⟩ :=
    sweep_loop_frame cfg t.address_space [] { t with address_space := [] }
  exact h

theorem sweep_alloc_cost (cfg : GCConfig) (t : GCState) :
    (sweep cfg t).alloc_cost = t.alloc_cost := by
  unfold sweep
  obtain ⟨-, -, -, -, -, -, -, -, -, -, -, h, -⟩ :=
    sweep_loop_frame cfg t.address_space [] { t with address_space := [] }
  exact h

theorem invalidate_tids (cfg : GCConfig) (t : GCState) :
    (invalidate_weakrefs cfg t).tids = t.tids := by
  unfold invalidate_weakrefs
  obtain ⟨h, -⟩ := invalidate_loop_frame cfg t.objects_with_weakrefs [] t
  exact h

theorem invalidate_refs (cfg : GCConfig) (t : GCState) :
    (invalidate_weakrefs cfg t).refs = t.refs := by
  unfold invalidate_weakrefs
  obtain ⟨-, h, -⟩ := invalidate_loop_frame cfg t.objects_with_weakrefs [] t
  exact h

theorem invalidate_varlength (cfg : GCConfig) (t : GCState) :
    (invalidate_weakrefs cfg t).varlength = t.varlength := by
  unfold invalidate_weakrefs
  obtain ⟨-, -, h, -⟩ := invalidate_loop_frame cfg t.objects_with_weakrefs [] t
  exact h

theorem invalidate_addr (cfg : GCConfig) (t : GCState) :
    (invalidate_weakrefs cfg t).address_space = t.address_space := by
  unfold invalidate_weakrefs
  obtain ⟨-, -, -, h, -⟩ := invalidate_loop_frame cfg t.objects_with_weakrefs [] t
  exact h

theorem invalidate_fins (cfg : GCConfig) (t : GCState) :
    (invalidate_weakrefs cfg t).objects_with_finalizers =
      t.objects_with_finalizers := by
  unfold invalidate_weakrefs
  obtain ⟨-, -, -, -, h, -⟩ := invalidate_loop_frame cfg t.objects_with_weakrefs [] t
  exact h

theorem invalidate_run (cfg : GCConfig) (t : GCState) :
    (invalidate_weakrefs cfg t).run_finalizers = t.run_finalizers := by
  unfold invalidate_weakrefs
  obtain ⟨-, -, -, -, -, h, -⟩ := invalidate_loop_frame cfg t.objects_with_weakrefs [] t
  exact h

theorem invalidate_lock (cfg : GCConfig) (t : GCState) :
    (invalidate_weakrefs cfg t).collection_lock = t.collection_lock := by
  unfold invalidate_weakrefs
  obtain ⟨-, -, -, -, -, -, h, -⟩ := invalidate_loop_frame cfg t.objects_with_weakrefs [] t
  exact h

theorem invalidate_cur (cfg : GCConfig) (t : GCState) :
    (invalidate_weakrefs cfg t).cur_heap_size = t.cur_heap_size := by
  unfold invalidate_weakrefs
  obtain ⟨-, -, -, -, -, -, -, -, -, -, h, -⟩ := invalidate_loop_frame cfg t.objects_with_weakrefs [] t
  exact h

theorem invalidate_prev (cfg : GCConfig) (t : GCState) :
    (invalidate_weakrefs cfg t).prev_heap_size = t.prev_heap_size := by
  unfold invalidate_weakrefs
  obtain ⟨-, -, -, -, -, -, -, -, -, h, -⟩ := invalidate_loop_frame cfg t.objects_with_weakrefs [] t
  exact h

theorem invalidate_freed (cfg : GCConfig) (t : GCState) :
    (invalidate_weakrefs cfg t).freed = t.freed := by
  unfold invalidate_weakrefs
  obtain ⟨-, -, -, -, -, -, -, -, -, -, -, -, h, -⟩ := invalidate_loop_frame cfg t.objects_with_weakrefs [] t
  exact h

theorem invalidate_next (cfg : GCConfig) (t : GCState) :
    (invalidate_weakrefs cfg t).next_addr = t.next_addr := by
  unfold invalidate_weakrefs
  obtain ⟨-, -, -, -, -, -, -, -, -, -, -, h, -⟩ := invalidate_loop_frame cfg t.objects_with_weakrefs [] t
  exact h

theorem invalidate_count (cfg : GCConfig) (t : GCState) :
    (invalidate_weakrefs cfg t).collections_started =
      t.collections_started := by
  unfold invalidate_weakrefs
  obtain ⟨-, -, -, -, -, -, -, -, -, -, -, -, -, -, h⟩ := invalidate_loop_frame cfg t.objects_with_weakrefs [] t
  exact h

theorem invalidate_alloc_cost (cfg : GCConfig) (t : GCState) :
    (invalidate_weakrefs cfg t).alloc_cost = t.alloc_cost := by
  unfold invalidate_weakrefs
  obtain ⟨-, -, -, -, -, -, -, -, -, -, -, -, -, h, -⟩ := invalidate_loop_frame cfg t.objects_with_weakrefs [] t
  exact h

theorem invalidate_factor (cfg : GCConfig) (t : GCState) :
    (invalidate_weakrefs cfg t).heap_growth_factor =
      t.heap_growth_factor := by
  unfold invalidate_weakrefs
  obtain ⟨-, -, -, -, -, -, -, h, -⟩ := invalidate_loop_frame cfg t.objects_with_weakrefs [] t
  exact h

/-- Projections of the mark phase of collect (everything but the headers
is untouched; the lock is taken; the ghost cycle counter advanced). -/
theorem collect_mark_props (cfg : GCConfig) (roots : List Nat)
    (s : GCState) :
    (collect_mark cfg roots s).refs = s.refs ∧
    (collect_mark cfg roots s).weakslot = s.weakslot ∧
    (collect_mark cfg roots s).varlength = s.varlength ∧
    (collect_mark cfg roots s).address_space = s.address_space ∧
    (collect_mark cfg roots s).objects_with_weakrefs =
      s.objects_with_weakrefs ∧
    (collect_mark cfg roots s).objects_with_finalizers =
      s.objects_with_finalizers ∧
    (collect_mark cfg roots s).run_finalizers = s.run_finalizers ∧
    (collect_mark cfg roots s).collection_lock = true ∧
    (collect_mark cfg roots s).heap_growth_factor = s.heap_growth_factor ∧
    (collect_mark cfg roots s).initial_heap_size = s.initial_heap_size ∧
    (collect_mark cfg roots s).prev_heap_size = s.prev_heap_size ∧
    (collect_mark cfg roots s).cur_heap_size = s.cur_heap_size ∧
    (collect_mark cfg roots s).next_addr = s.next_addr ∧
    (collect_mark cfg roots s).freed = s.freed ∧
    (collect_mark cfg roots s).alloc_cost = s.alloc_cost ∧
    (collect_mark cfg roots s).collections_started =
      s.collections_started + 1 := by
  have heq := eqet_mark cfg roots (collect_enter s)
  unfold collect_mark
  exact ⟨heq.refs, heq.weakslot, heq.varlength, heq.address_space,
    heq.objects_with_weakrefs, heq.objects_with_finalizers,
    heq.run_finalizers, heq.collection_lock, heq.heap_growth_factor,
    heq.initial_heap_size, heq.prev_heap_size, heq.cur_heap_size,
    heq.next_addr, heq.freed, heq.alloc_cost, heq.collections_started⟩

theorem collect_pre_weak_lock (cfg : GCConfig) (roots : List Nat)
    (s : GCState) :
    (collect_pre_weak cfg roots s).collection_lock = true := by
  unfold collect_pre_weak
  dsimp only
  split
  · exact (collect_mark_props cfg roots s).2.2.2.2.2.2.2.1
  · rw [(deal_with_props cfg _).2.2.2.2.2.2.2.1]
    exact (collect_mark_props cfg roots s).2.2.2.2.2.2.2.1

theorem collect_pre_sweep_lock (cfg : GCConfig) (roots : List Nat)
    (s : GCState) :
    (collect_pre_sweep cfg roots s).collection_lock = true := by
  unfold collect_pre_sweep
  dsimp only
  split
  · exact collect_pre_weak_lock cfg roots s
  · rw [invalidate_lock]
    exact collect_pre_weak_lock cfg roots s

theorem collect_pre_exec_lock (cfg : GCConfig) (roots : List Nat)
    (s : GCState) :
    (collect_pre_exec cfg roots s).collection_lock = true := by
  unfold collect_pre_exec
  rw [sweep_lock]
  exact collect_pre_sweep_lock cfg roots s

theorem collect_pre_exec_run (cfg : GCConfig) (roots : List Nat)
    (s : GCState) :
    (collect_pre_exec cfg roots s).run_finalizers =
      (collect_pre_weak cfg roots s).run_finalizers := by
  unfold collect_pre_exec collect_pre_sweep
  dsimp only
  rw [sweep_run]
  split
  · rfl
  · rw [invalidate_run]

theorem collect_pre_exec_fins (cfg : GCConfig) (roots : List Nat)
    (s : GCState) :
    (collect_pre_exec cfg roots s).objects_with_finalizers =
      (collect_pre_weak cfg roots s).objects_with_finalizers := by
  unfold collect_pre_exec collect_pre_sweep
  dsimp only
  rw [sweep_fins]
  split
  · rfl
  · rw [invalidate_fins]

theorem collect_locked (cfg : GCConfig)
    (cb : Int → Nat → GCState → GCState) (roots : List Nat) (t : GCState)
    (h : t.collection_lock = true) : collect cfg cb roots t = t := by
  unfold collect
  rw [if_pos h]

theorem collect_unlocked (cfg : GCConfig)
    (cb : Int → Nat → GCState → GCState) (roots : List Nat) (s : GCState)
    (h : s.collection_lock = false) :
    collect cfg cb roots s =
      { execute_finalizers cb (collect_pre_exec cfg roots s) with
        prev_heap_size :=
          (execute_finalizers cb (collect_pre_exec cfg roots s)).cur_heap_size,
        collection_lock := false } := by
  unfold collect
  rw [if_neg (by rw [h]; simp)]

/-! ### Concrete example heaps used by witnesses and counterexamples -/

/-- Trivial finalizer callbacks for concrete runs. -/
def exCb : Int → Nat → GCState → GCState := fun _ _ t => t

/-- Example type metadata: every type id is fixed-size with payload 16
bytes; the GC header occupies 8 bytes (the HDR struct holds one Signed
field on a 64-bit platform). -/
def exCfg : GCConfig where
  size_gc_header := 8
  is_varsize := fun _ => false
  fixed_size := fun _ => 16
  varitem_size := fun _ => 0

/-- A blank machine state before setup. -/
def exBase : GCState where
  tids := fun _ => 0
  refs := fun _ => []
  weakslot := fun _ => 0
  varlength := fun _ => 0
  address_space := []
  objects_with_weakrefs := []
  objects_with_finalizers := []
  run_finalizers := []
  collection_lock := false
  heap_growth_factor := 2
  initial_heap_size := 200
  prev_heap_size := 200
  cur_heap_size := 0
  next_addr := 100
  freed := []
  alloc_cost := fun _ => 0
  collections_started := 0

/-- A freshly set-up collector. -/
def exS0 : GCState := setup exBase

/-- The collector after allocating one 16-byte fixed-size object (total
raw cost 24 with the 8-byte header); the object sits at raw address 100
and is unreachable (no roots). -/
def exAllocState : GCState :=
  (malloc_fixedsize exCfg exCb [] 1 16 false false false exS0).1

/-- C1: the heap-size counter does NOT return to the summed allocation
cost of the surviving set.  malloc_fixedsize adds the full raw size
header + payload = 24; sweep subtracts only get_size = 16 (the payload,
without the GC header), so after collecting the only (dead) object the
registry is empty but the counter reads 8 instead of 0.  This exhibits
the divergence of the code from the stated post-condition. -/
theorem C1_sweep_cost_mismatch :
    exAllocState.cur_heap_size = 24 ∧
    exAllocState.alloc_cost 100 = 24 ∧
    (collect exCfg exCb [] exAllocState).address_space = [] ∧
    ((collect exCfg exCb [] exAllocState).address_space.map
      (collect exCfg exCb [] exAllocState).alloc_cost).sum = 0 ∧
    (collect exCfg exCb [] exAllocState).cur_heap_size = 8 ∧
    (8 : Int) ≠ 0 := by decide

/-- C3: an overflow in the total-size computation of malloc_varsize (the
item product, or adding the non-variable part) makes the call fail with
the out-of-memory condition before the growth check and before any raw
allocation: the returned state is exactly the input state, so the
allocation registry, heap-size counter, finalizer and weak registries,
the raw allocator cursor and the free log are all untouched. -/
theorem C3_varsize_overflow_raises_before_alloc
    (cfg : GCConfig) (cb : Int → Nat → GCState → GCState)
    (roots : List Nat) (typeid length size itemsize ofs : Nat)
    (s : GCState)
    (h : itemsize * length > sys_maxint ∨
      cfg.size_gc_header + size + itemsize * length > sys_maxint) :
    malloc_varsize cfg cb roots typeid length size itemsize ofs s =
      (s, Except.error ()) := by
  unfold malloc_varsize ovfcheck
  dsimp only
  by_cases h1 : itemsize * length > sys_maxint
  · rw [if_pos h1]
  · rw [if_neg h1]
    have h2 : cfg.size_gc_header + size + itemsize * length >
        sys_maxint := by
      rcases h with hx | hx
      · exact absurd hx h1
      · exact hx
    dsimp only
    rw [if_pos h2]

/-- C3 witness: a concrete overflowing request (item size 2^62, length
4) fails on a fresh heap and leaves the state unchanged. -/
theorem C3_varsize_overflow_witness :
    (2 ^ 62 * 4 > sys_maxint ∨
      exCfg.size_gc_header + 16 + 2 ^ 62 * 4 > sys_maxint) ∧
    malloc_varsize exCfg exCb [] 1 4 16 (2 ^ 62) 0 exS0 =
      (exS0, Except.error ()) :=
  ⟨Or.inl (by decide),
   C3_varsize_overflow_raises_before_alloc exCfg exCb [] 1 4 16 (2 ^ 62) 0
     exS0 (Or.inl (by decide))⟩

/-- C5: the reentrancy guard.  The state in which the deferred finalizer
callbacks run (the post-sweep state of the cycle) holds the collection
lock, and any collect() call on a locked state returns it unchanged (no
phase of a nested cycle runs); the outer cycle nevertheless completes
normally: it releases the lock and commits the new growth baseline. -/
theorem C5_reentrancy (cfg : GCConfig)
    (cb : Int → Nat → GCState → GCState) (roots : List Nat)
    (s : GCState) (h : s.collection_lock = false) :
    (∀ (cb2 : Int → Nat → GCState → GCState) (roots2 : List Nat),
      collect cfg cb2 roots2 (collect_pre_exec cfg roots s) =
        collect_pre_exec cfg roots s) ∧
    (∀ t : GCState, t.collection_lock = true →
      ∀ (cb2 : Int → Nat → GCState → GCState) (roots2 : List Nat),
        collect cfg cb2 roots2 t = t) ∧
    (collect cfg cb roots s).collection_lock = false ∧
    (collect cfg cb roots s).prev_heap_size =
      (collect cfg cb roots s).cur_heap_size := by
  refine ⟨?_, ?_, ?_, ?_⟩
  · intro cb2 roots2
    exact collect_locked cfg cb2 roots2 _ (collect_pre_exec_lock cfg roots s)
  · intro t ht cb2 roots2
    exact collect_locked cfg cb2 roots2 t ht
  · rw [collect_unlocked cfg cb roots s h]
  · rw [collect_unlocked cfg cb roots s h]

/-- C5 witness: the guard theorem applied to the fresh example heap. -/
theorem C5_reentrancy_witness :
    exS0.collection_lock = false ∧
    ((∀ (cb2 : Int → Nat → GCState → GCState) (roots2 : List Nat),
      collect exCfg cb2 roots2 (collect_pre_exec exCfg [] exS0) =
        collect_pre_exec exCfg [] exS0) ∧
    (∀ t : GCState, t.collection_lock = true →
      ∀ (cb2 : Int → Nat → GCState → GCState) (roots2 : List Nat),
        collect exCfg cb2 roots2 t = t) ∧
    (collect exCfg exCb [] exS0).collection_lock = false ∧
    (collect exCfg exCb [] exS0).prev_heap_size =
      (collect exCfg exCb [] exS0).cur_heap_size) :=
  ⟨rfl, C5_reentrancy exCfg exCb [] exS0 rfl⟩

theorem collect_pre_weak_weakreg (cfg : GCConfig) (roots : List Nat)
    (s : GCState) :
    (collect_pre_weak cfg roots s).objects_with_weakrefs =
      s.objects_with_weakrefs := by
  unfold collect_pre_weak
  dsimp only
  split
  · exact (collect_mark_props cfg roots s).2.2.2.2.1
  · rw [(deal_with_props cfg _).2.2.2.2.2.2.1]
    exact (collect_mark_props cfg roots s).2.2.2.2.1

theorem collect_pre_weak_weakslot (cfg : GCConfig) (roots : List Nat)
    (s : GCState) :
    (collect_pre_weak cfg roots s).weakslot = s.weakslot := by
  unfold collect_pre_weak
  dsimp only
  split
  · exact (collect_mark_props cfg roots s).2.1
  · rw [(deal_with_props cfg _).2.2.2.1]
    exact (collect_mark_props cfg roots s).2.1

theorem collect_pre_weak_freed (cfg : GCConfig) (roots : List Nat)
    (s : GCState) :
    (collect_pre_weak cfg roots s).freed = s.freed := by
  unfold collect_pre_weak
  dsimp only
  split
  · exact (collect_mark_props cfg roots s).2.2.2.2.2.2.2.2.2.2.2.2.2.1
  · rw [(deal_with_props cfg _).2.2.2.2.2.2.2.2.2.2.1]
    exact (collect_mark_props cfg roots s).2.2.2.2.2.2.2.2.2.2.2.2.2.1

/-- C10: a registered weak-containing object that survives the cycle but
whose weak slot already reads NULL is dropped from the weak registry by
the invalidation pass, its slot is untouched, and -- because the rebuilt
registry only ever draws from the processed entries -- an object absent
from the registry is never re-checked in a later cycle. -/
theorem C10_null_slot_dropped (cfg : GCConfig) (t : GCState) (obj : Nat)
    (hsurv : surviving cfg t obj = true)
    (hz : t.weakslot obj = 0) :
    obj ∉ (invalidate_weakrefs cfg t).objects_with_weakrefs ∧
    (invalidate_weakrefs cfg t).weakslot obj = t.weakslot obj ∧
    (∀ (u : GCState) (o : Nat),
      o ∈ (invalidate_weakrefs cfg u).objects_with_weakrefs →
      o ∈ u.objects_with_weakrefs) := by
  refine ⟨?_, ?_, ?_⟩
  · exact invalidate_loop_null_slot cfg t.objects_with_weakrefs [] t obj hz
      (List.not_mem_nil obj)
  · rw [hz]
    exact invalidate_loop_zero_stays cfg t.objects_with_weakrefs [] t obj hz
  · intro u o ho
    rcases invalidate_loop_registry_sub cfg u.objects_with_weakrefs [] u o ho
      with h | h
    · cases h
    · exact h

/-- State for the weak-reference scenarios: three 16-byte objects at
100, 200 and 300 past setup... carriers at object pointers 308 and 508;
308 has a NULL weak slot in the C10 witness variant. -/
def exWeakNullState : GCState :=
  { exS0 with
    address_space := [300]
    objects_with_weakrefs := [308]
    tids := fun a => if a = 300 then GCFLAG_SURVIVING else 0
    cur_heap_size := 24 }

/-- C10 witness: the concrete carrier at object pointer 308, surviving
and with a NULL slot, is dropped and untouched. -/
theorem C10_null_slot_dropped_witness :
    surviving exCfg exWeakNullState 308 = true ∧
    exWeakNullState.weakslot 308 = 0 ∧
    (308 ∉ (invalidate_weakrefs exCfg exWeakNullState).objects_with_weakrefs ∧
    (invalidate_weakrefs exCfg exWeakNullState).weakslot 308 =
      exWeakNullState.weakslot 308 ∧
    (∀ (u : GCState) (o : Nat),
      o ∈ (invalidate_weakrefs exCfg u).objects_with_weakrefs →
      o ∈ u.objects_with_weakrefs)) :=
  ⟨by decide, rfl,
   C10_null_slot_dropped exCfg exWeakNullState 308 (by decide) rfl⟩

/-- C6: weak-reference invalidation inside a collection cycle.  For a
registered carrier that is surviving after the mark (and finalizer
re-mark) phase: a slot holding a pointer to a non-surviving target is
overwritten with NULL in the pre-sweep state -- before sweep releases
any memory, the free log at that point still being the caller's; a slot
holding a pointer to a surviving target is byte-for-byte unchanged from
the start of the cycle and the carrier is re-registered for the next
cycle. -/
theorem C6_weakref_invalidation (cfg : GCConfig) (roots : List Nat)
    (s : GCState) (obj : Nat)
    (hmem : obj ∈ s.objects_with_weakrefs)
    (hsurv : surviving cfg (collect_pre_weak cfg roots s) obj = true) :
    ((collect_pre_weak cfg roots s).weakslot obj ≠ 0 →
      surviving cfg (collect_pre_weak cfg roots s)
        ((collect_pre_weak cfg roots s).weakslot obj) = false →
      (collect_pre_sweep cfg roots s).weakslot obj = 0 ∧
      (collect_pre_sweep cfg roots s).freed = s.freed) ∧
    ((collect_pre_weak cfg roots s).weakslot obj ≠ 0 →
      surviving cfg (collect_pre_weak cfg roots s)
        ((collect_pre_weak cfg roots s).weakslot obj) = true →
      (collect_pre_sweep cfg roots s).weakslot obj = s.weakslot obj ∧
      obj ∈ (collect_pre_sweep cfg roots s).objects_with_weakrefs) := by
  have hreg : (collect_pre_weak cfg roots s).objects_with_weakrefs =
      s.objects_with_weakrefs := collect_pre_weak_weakreg cfg roots s
  have hmem2 : obj ∈ (collect_pre_weak cfg roots s).objects_with_weakrefs := by
    rw [hreg]
    exact hmem
  have hne : (collect_pre_weak cfg roots s).objects_with_weakrefs.isEmpty =
      false := by
    rw [hreg]
    cases hc : s.objects_with_weakrefs with
    | nil => rw [hc] at hmem; cases hmem
    | cons a t => rfl
  have hq : collect_pre_sweep cfg roots s =
      invalidate_weakrefs cfg (collect_pre_weak cfg roots s) := by
    unfold collect_pre_sweep
    dsimp only
    rw [hne]
    simp
  constructor
  · intro hnz ht
    constructor
    · rw [hq]
      exact invalidate_loop_dead_target cfg
        (collect_pre_weak cfg roots s).objects_with_weakrefs []
        (collect_pre_weak cfg roots s) obj hmem2 hsurv hnz ht
    · rw [hq, invalidate_freed]
      exact collect_pre_weak_freed cfg roots s
  · intro hnz ht
    obtain ⟨h1, h2⟩ := invalidate_loop_live_target cfg
      (collect_pre_weak cfg roots s).objects_with_weakrefs []
      (collect_pre_weak cfg roots s) obj hsurv hnz ht
    constructor
    · rw [hq]
      show (invalidate_loop cfg
        (collect_pre_weak cfg roots s).objects_with_weakrefs []
        (collect_pre_weak cfg roots s)).weakslot obj = s.weakslot obj
      rw [h1]
      rw [collect_pre_weak_weakslot cfg roots s]
    · rw [hq]
      exact h2 (Or.inr hmem2)

/-- Heap for the C6 witness: objects at 300, 400, 500; carriers at
object pointers 308 (slot pointing at the dead 408) and 508 (slot
pointing at the surviving 308); roots keep 308 and 508 alive. -/
def exWeakState : GCState :=
  { exS0 with
    address_space := [300, 400, 500]
    objects_with_weakrefs := [308, 508]
    weakslot := fun p => if p = 308 then 408 else if p = 508 then 308 else 0
    cur_heap_size := 72 }

/-- C6 witness: the weak invalidation theorem applied to the concrete
two-carrier heap. -/
theorem C6_weakref_invalidation_witness :
    308 ∈ exWeakState.objects_with_weakrefs ∧
    surviving exCfg (collect_pre_weak exCfg [308, 508] exWeakState) 308 =
      true ∧
    (((collect_pre_weak exCfg [308, 508] exWeakState).weakslot 308 ≠ 0 →
      surviving exCfg (collect_pre_weak exCfg [308, 508] exWeakState)
        ((collect_pre_weak exCfg [308, 508] exWeakState).weakslot 308) =
          false →
      (collect_pre_sweep exCfg [308, 508] exWeakState).weakslot 308 = 0 ∧
      (collect_pre_sweep exCfg [308, 508] exWeakState).freed =
        exWeakState.freed) ∧
    ((collect_pre_weak exCfg [308, 508] exWeakState).weakslot 308 ≠ 0 →
      surviving exCfg (collect_pre_weak exCfg [308, 508] exWeakState)
        ((collect_pre_weak exCfg [308, 508] exWeakState).weakslot 308) =
          true →
      (collect_pre_sweep exCfg [308, 508] exWeakState).weakslot 308 =
        exWeakState.weakslot 308 ∧
      308 ∈ (collect_pre_sweep exCfg [308, 508]
        exWeakState).objects_with_weakrefs)) :=
  ⟨by decide, by decide,
   C6_weakref_invalidation exCfg [308, 508] exWeakState 308 (by decide)
     (by decide)⟩

theorem count_eq_one_of_nodup_mem {α : Type} [BEq α] [LawfulBEq α]
    {l : List α} {a : α} (hnd : l.Nodup) (ha : a ∈ l) : l.count a = 1 := by
  induction l with
  | nil => cases ha
  | cons b t ih =>
    rcases List.mem_cons.mp ha with h | h
    · subst h
      rw [List.count_cons_self]
      have hnin : a ∉ t := (List.nodup_cons.mp hnd).1
      rw [List.count_eq_zero.mpr hnin]
    · have hneq : b ≠ a := fun he => (List.nodup_cons.mp hnd).1 (he ▸ h)
      rw [List.count_cons_of_ne (Ne.symm hneq)]
      exact ih (List.nodup_cons.mp hnd).2 h

/-- C4: a finalizer entry whose object is found dead by the partition is
scheduled exactly once and removed from the finalizer registry in the
same step, before the deferred callbacks run: in the post-sweep state
handed to execute_finalizers the deferred-run queue holds the entry
exactly once and the finalizer registry no longer holds it; the rebuilt
registry only keeps entries of the old one (so a consumed entry can
never be scheduled again in a later cycle unless freshly re-registered);
and the collect call itself runs the callbacks only on that post-sweep
state. -/
theorem C4_finalizer_scheduled_once (cfg : GCConfig) (roots : List Nat)
    (s : GCState) (x : Nat) (q : Int)
    (hlock : s.collection_lock = false)
    (hrun : s.run_finalizers = [])
    (hnd : s.objects_with_finalizers.Nodup)
    (hmem : (x, q) ∈ s.objects_with_finalizers)
    (hdead : surviving cfg (collect_mark cfg roots s) x = false) :
    (collect_pre_exec cfg roots s).run_finalizers.count (q, x) = 1 ∧
    (x, q) ∉ (collect_pre_exec cfg roots s).objects_with_finalizers ∧
    (∀ e ∈ (collect_pre_exec cfg roots s).objects_with_finalizers,
      e ∈ s.objects_with_finalizers) ∧
    (∀ cb : Int → Nat → GCState → GCState, collect cfg cb roots s =
      { execute_finalizers cb (collect_pre_exec cfg roots s) with
        prev_heap_size :=
          (execute_finalizers cb (collect_pre_exec cfg roots s)).cur_heap_size,
        collection_lock := false }) := by
  have hfins : (collect_mark cfg roots s).objects_with_finalizers =
      s.objects_with_finalizers := (collect_mark_props cfg roots s).2.2.2.2.2.1
  have hrunm : (collect_mark cfg roots s).run_finalizers = [] := by
    rw [(collect_mark_props cfg roots s).2.2.2.2.2.2.1]
    exact hrun
  have hmemm : (x, q) ∈ (collect_mark cfg roots s).objects_with_finalizers := by
    rw [hfins]
    exact hmem
  have hne : (collect_mark cfg roots s).objects_with_finalizers.isEmpty =
      false := by
    rw [hfins]
    cases hc : s.objects_with_finalizers with
    | nil => rw [hc] at hmem; cases hmem
    | cons a t => rfl
  have hpw : collect_pre_weak cfg roots s =
      deal_with_objects_with_finalizers cfg (collect_mark cfg roots s) := by
    unfold collect_pre_weak
    dsimp only
    rw [hne]
    simp
  have hinj : Function.Injective
      (fun e : Nat × Int => (e.2, e.1)) := by
    intro a b hab
    obtain ⟨a1, a2⟩ := a
    obtain ⟨b1, b2⟩ := b
    simp only [Prod.mk.injEq] at hab
    exact Prod.ext hab.2 hab.1
  have hmemfilter : (x, q) ∈
      (collect_mark cfg roots s).objects_with_finalizers.filter
        (fun e => !surviving cfg (collect_mark cfg roots s) e.1) := by
    refine List.mem_filter.mpr ⟨hmemm, ?_⟩
    rw [hdead]
    rfl
  have hndf : ((collect_mark cfg roots s).objects_with_finalizers.filter
      (fun e => !surviving cfg (collect_mark cfg roots s) e.1)).Nodup := by
    rw [hfins]
    exact hnd.filter _
  have hrunpw : (collect_pre_weak cfg roots s).run_finalizers =
      scheduled_entries cfg (collect_mark cfg roots s) := by
    rw [hpw, (deal_with_props cfg _).2.1, hrunm]
    rfl
  have hcount : (collect_pre_weak cfg roots s).run_finalizers.count (q, x)
      = 1 := by
    rw [hrunpw]
    unfold scheduled_entries
    apply count_eq_one_of_nodup_mem (hndf.map hinj)
    exact List.mem_map.mpr ⟨(x, q), hmemfilter, rfl⟩
  have hkept : (collect_pre_weak cfg roots s).objects_with_finalizers =
      (collect_mark cfg roots s).objects_with_finalizers.filter
        (fun e => surviving cfg (collect_mark cfg roots s) e.1) := by
    rw [hpw, (deal_with_props cfg _).1]
    rfl
  refine ⟨?_, ?_, ?_, ?_⟩
  · rw [collect_pre_exec_run]
    exact hcount
  · rw [collect_pre_exec_fins, hkept]
    intro hin
    have := (List.mem_filter.mp hin).2
    rw [hdead] at this
    cases this
  · intro e he
    rw [collect_pre_exec_fins, hkept] at he
    have := List.mem_of_mem_filter he
    rw [hfins] at this
    exact this
  · intro cb
    exact collect_unlocked cfg cb roots s hlock

/-- Heap for the C4 witness: one finalizer-registered 16-byte object at
start address 100 (object pointer 108, queue index 5), unreachable. -/
def exFinState : GCState :=
  { exS0 with
    address_space := [100]
    objects_with_finalizers := [(108, 5)]
    cur_heap_size := 24 }

/-- C4 witness: the scheduling theorem applied to the concrete
one-object heap with an empty root set. -/
theorem C4_finalizer_scheduled_once_witness :
    exFinState.collection_lock = false ∧
    exFinState.run_finalizers = [] ∧
    exFinState.objects_with_finalizers.Nodup ∧
    (108, 5) ∈ exFinState.objects_with_finalizers ∧
    surviving exCfg (collect_mark exCfg [] exFinState) 108 = false ∧
    ((collect_pre_exec exCfg [] exFinState).run_finalizers.count (5, 108)
      = 1 ∧
    (108, 5) ∉ (collect_pre_exec exCfg [] exFinState).objects_with_finalizers ∧
    (∀ e ∈ (collect_pre_exec exCfg [] exFinState).objects_with_finalizers,
      e ∈ exFinState.objects_with_finalizers) ∧
    (∀ cb : Int → Nat → GCState → GCState, collect exCfg cb [] exFinState =
      { execute_finalizers cb (collect_pre_exec exCfg [] exFinState) with
        prev_heap_size :=
          (execute_finalizers cb
            (collect_pre_exec exCfg [] exFinState)).cur_heap_size,
        collection_lock := false })) :=
  ⟨rfl, rfl, by decide, by decide, by decide,
   C4_finalizer_scheduled_once exCfg [] exFinState 108 5 rfl rfl
     (by decide) (by decide) (by decide)⟩

theorem collect_pre_weak_count (cfg : GCConfig) (roots : List Nat)
    (s : GCState) :
    (collect_pre_weak cfg roots s).collections_started =
      s.collections_started + 1 := by
  unfold collect_pre_weak
  dsimp only
  split
  · exact (collect_mark_props cfg roots s).2.2.2.2.2.2.2.2.2.2.2.2.2.2.2
  · rw [(deal_with_props cfg _).2.2.2.2.2.2.2.2.2.2.2.2.2.1]
    exact (collect_mark_props cfg roots s).2.2.2.2.2.2.2.2.2.2.2.2.2.2.2

theorem collect_pre_exec_count (cfg : GCConfig) (roots : List Nat)
    (s : GCState) :
    (collect_pre_exec cfg roots s).collections_started =
      s.collections_started + 1 := by
  unfold collect_pre_exec collect_pre_sweep
  dsimp only
  rw [sweep_count]
  split
  · exact collect_pre_weak_count cfg roots s
  · rw [invalidate_count]
    exact collect_pre_weak_count cfg roots s

/-- An unlocked collect starts exactly one cycle, provided the deferred
callbacks leave the ghost cycle counter alone. -/
theorem collect_count (cfg : GCConfig)
    (cb : Int → Nat → GCState → GCState) (roots : List Nat) (s : GCState)
    (hlock : s.collection_lock = false)
    (hcb : ∀ q x t, (cb q x t).collections_started =
      t.collections_started) :
    (collect cfg cb roots s).collections_started =
      s.collections_started + 1 := by
  rw [collect_unlocked cfg cb roots s hlock]
  show (execute_finalizers cb
    (collect_pre_exec cfg roots s)).collections_started = _
  unfold execute_finalizers
  rw [run_queue_preserve cb GCState.collections_started hcb]
  show (collect_pre_exec cfg roots s).collections_started = _
  exact collect_pre_exec_count cfg roots s

theorem malloc_fixedsize_count (cfg : GCConfig)
    (cb : Int → Nat → GCState → GCState) (roots : List Nat)
    (typeid size : Nat) (nf fl cw : Bool) (s : GCState) :
    (malloc_fixedsize cfg cb roots typeid size nf fl cw s).1.collections_started =
      (if ((cfg.size_gc_header + size : Nat) : Int) + s.cur_heap_size >
          s.heap_growth_factor * s.prev_heap_size
        then collect cfg cb roots s else s).collections_started := by
  unfold malloc_fixedsize raw_malloc init_gc_object
  dsimp only
  cases nf <;> cases cw <;> rfl

theorem malloc_fixedsize_result (cfg : GCConfig)
    (cb : Int → Nat → GCState → GCState) (roots : List Nat)
    (typeid size : Nat) (nf fl cw : Bool) (s : GCState) :
    (malloc_fixedsize cfg cb roots typeid size nf fl cw s).2 =
      (if ((cfg.size_gc_header + size : Nat) : Int) + s.cur_heap_size >
          s.heap_growth_factor * s.prev_heap_size
        then collect cfg cb roots s else s).next_addr +
        cfg.size_gc_header := by
  unfold malloc_fixedsize raw_malloc
  dsimp only

theorem malloc_varsize_count (cfg : GCConfig)
    (cb : Int → Nat → GCState → GCState) (roots : List Nat)
    (typeid length size itemsize ofs : Nat) (s : GCState)
    (h1 : ¬(itemsize * length > sys_maxint))
    (h2 : ¬(cfg.size_gc_header + size + itemsize * length > sys_maxint)) :
    (malloc_varsize cfg cb roots typeid length size itemsize ofs
        s).1.collections_started =
      (if ((cfg.size_gc_header + size + itemsize * length : Nat) : Int) +
            s.cur_heap_size > s.heap_growth_factor * s.prev_heap_size
        then collect cfg cb roots s else s).collections_started := by
  unfold malloc_varsize ovfcheck
  dsimp only
  rw [if_neg h1]
  dsimp only
  rw [if_neg h2]
  dsimp only
  rfl

/-- C7: the growth policy.  For a fixed-size allocation: when the
requested total raw size plus the heap-size counter exceeds
growth-factor times the previous heap size, exactly one collection
cycle is started before the raw allocation (the returned object pointer
is carved from the post-collect allocator cursor); otherwise no
collection is started.  The same trigger governs malloc_varsize when
its size computation does not overflow.  In particular with growth
factor 2 and previous heap size 200 the allocation that pushes the
counter past 400 collects before returning. -/
theorem C7_growth_trigger (cfg : GCConfig)
    (cb : Int → Nat → GCState → GCState) (roots : List Nat)
    (typeid size : Nat) (nf fl cw : Bool)
    (typeid2 length2 size2 itemsize2 ofs2 : Nat)
    (s : GCState)
    (hlock : s.collection_lock = false)
    (hcb : ∀ q x t, (cb q x t).collections_started =
      t.collections_started) :
    ((((cfg.size_gc_header + size : Nat) : Int) + s.cur_heap_size >
        s.heap_growth_factor * s.prev_heap_size →
      (malloc_fixedsize cfg cb roots typeid size nf fl cw
          s).1.collections_started = s.collections_started + 1 ∧
      (malloc_fixedsize cfg cb roots typeid size nf fl cw s).2 =
        (collect cfg cb roots s).next_addr + cfg.size_gc_header) ∧
    (¬(((cfg.size_gc_header + size : Nat) : Int) + s.cur_heap_size >
        s.heap_growth_factor * s.prev_heap_size) →
      (malloc_fixedsize cfg cb roots typeid size nf fl cw
          s).1.collections_started = s.collections_started) ∧
    (itemsize2 * length2 ≤ sys_maxint →
      cfg.size_gc_header + size2 + itemsize2 * length2 ≤ sys_maxint →
      (((cfg.size_gc_header + size2 + itemsize2 * length2 : Nat) : Int) +
          s.cur_heap_size > s.heap_growth_factor * s.prev_heap_size →
        (malloc_varsize cfg cb roots typeid2 length2 size2 itemsize2 ofs2
            s).1.collections_started = s.collections_started + 1) ∧
      (¬(((cfg.size_gc_header + size2 + itemsize2 * length2 : Nat) : Int) +
          s.cur_heap_size > s.heap_growth_factor * s.prev_heap_size) →
        (malloc_varsize cfg cb roots typeid2 length2 size2 itemsize2 ofs2
            s).1.collections_started = s.collections_started)) ∧
    (s.heap_growth_factor = 2 → s.prev_heap_size = 200 →
      (((cfg.size_gc_header + size : Nat) : Int) + s.cur_heap_size > 400 →
      (malloc_fixedsize cfg cb roots typeid size nf fl cw
          s).1.collections_started = s.collections_started + 1))) := by
  refine ⟨?_, ?_, ?_, ?_⟩
  · intro hcond
    constructor
    · rw [malloc_fixedsize_count, if_pos hcond]
      exact collect_count cfg cb roots s hlock hcb
    · rw [malloc_fixedsize_result, if_pos hcond]
  · intro hcond
    rw [malloc_fixedsize_count, if_neg hcond]
  · intro hov1 hov2
    constructor
    · intro hcond
      rw [malloc_varsize_count cfg cb roots typeid2 length2 size2 itemsize2
        ofs2 s (not_lt.mpr hov1) (not_lt.mpr hov2), if_pos hcond]
      exact collect_count cfg cb roots s hlock hcb
    · intro hcond
      rw [malloc_varsize_count cfg cb roots typeid2 length2 size2 itemsize2
        ofs2 s (not_lt.mpr hov1) (not_lt.mpr hov2), if_neg hcond]
  · intro hf hp hcond
    have hcond2 : ((cfg.size_gc_header + size : Nat) : Int) +
        s.cur_heap_size > s.heap_growth_factor * s.prev_heap_size := by
      rw [hf, hp]
      norm_num
      exact hcond
    rw [malloc_fixedsize_count, if_pos hcond2]
    exact collect_count cfg cb roots s hlock hcb

/-- Heap for the C7 witness: a fresh collector whose counter already
reads 390, so the next 24-byte request crosses the 400 threshold. -/
def exFullState : GCState := { exS0 with cur_heap_size := 390 }

/-- C7 witness: the growth-trigger theorem applied to the concrete
nearly-full heap. -/
theorem C7_growth_trigger_witness :
    exFullState.collection_lock = false ∧
    (((24 : Int) + exFullState.cur_heap_size >
        exFullState.heap_growth_factor * exFullState.prev_heap_size →
      (malloc_fixedsize exCfg exCb [] 1 16 false false false
          exFullState).1.collections_started =
        exFullState.collections_started + 1 ∧
      (malloc_fixedsize exCfg exCb [] 1 16 false false false
          exFullState).2 =
        (collect exCfg exCb [] exFullState).next_addr +
          exCfg.size_gc_header) ∧
    (¬((24 : Int) + exFullState.cur_heap_size >
        exFullState.heap_growth_factor * exFullState.prev_heap_size) →
      (malloc_fixedsize exCfg exCb [] 1 16 false false false
          exFullState).1.collections_started =
        exFullState.collections_started) ∧
    (2 * 4 ≤ sys_maxint →
      exCfg.size_gc_header + 16 + 2 * 4 ≤ sys_maxint →
      (((exCfg.size_gc_header + 16 + 2 * 4 : Nat) : Int) +
          exFullState.cur_heap_size >
          exFullState.heap_growth_factor * exFullState.prev_heap_size →
        (malloc_varsize exCfg exCb [] 1 4 16 2 0
            exFullState).1.collections_started =
          exFullState.collections_started + 1) ∧
      (¬(((exCfg.size_gc_header + 16 + 2 * 4 : Nat) : Int) +
          exFullState.cur_heap_size >
          exFullState.heap_growth_factor * exFullState.prev_heap_size) →
        (malloc_varsize exCfg exCb [] 1 4 16 2 0
            exFullState).1.collections_started =
          exFullState.collections_started)) ∧
    (exFullState.heap_growth_factor = 2 →
      exFullState.prev_heap_size = 200 →
      (((exCfg.size_gc_header + 16 : Nat) : Int) +
          exFullState.cur_heap_size > 400 →
      (malloc_fixedsize exCfg exCb [] 1 16 false false false
          exFullState).1.collections_started =
        exFullState.collections_started + 1))) :=
  ⟨rfl, C7_growth_trigger exCfg exCb [] 1 16 false false false 1 4 16 2 0
    exFullState rfl (fun _ _ _ => rfl)⟩

/-! ### C9: the SURVIVING flag outside a cycle -/

theorem sweep_loop_allclear (cfg : GCConfig) (l : List Nat) :
    ∀ (acc : List Nat) (s : GCState),
      (∀ a ∈ acc, surviving cfg s (a + cfg.size_gc_header) = false) →
      ∀ a ∈ (sweep_loop cfg l acc s).address_space,
        surviving cfg (sweep_loop cfg l acc s) (a + cfg.size_gc_header) =
          false := by
  induction l with
  | nil =>
    intro acc s hacc a ha
    rw [sweep_loop] at ha ⊢
    exact hacc a ha
  | cons addr rest ih =>
    intro acc s hacc a ha
    rw [sweep_loop] at ha ⊢
    dsimp only at ha ⊢
    by_cases h : (s.tids addr &&& GCFLAG_SURVIVING != 0) = true
    · rw [if_pos h] at ha ⊢
      refine ih _ _ ?_ a ha
      intro b hb
      rw [surviving_eq_testBit]
      dsimp only
      rw [Nat.add_sub_cancel]
      rcases List.mem_append.mp hb with hb1 | hb1
      · by_cases hb2 : b = addr
        · rw [hb2, Function.update_same]
          exact testBit_ldiff_flag _
        · rw [Function.update_noteq hb2]
          have hc := hacc b hb1
          rw [surviving_eq_testBit, Nat.add_sub_cancel] at hc
          exact hc
      · rw [List.mem_singleton.mp hb1, Function.update_same]
        exact testBit_ldiff_flag _
    · rw [if_neg h] at ha ⊢
      refine ih _ _ ?_ a ha
      intro b hb
      exact hacc b hb

theorem sweep_allclear (cfg : GCConfig) (t : GCState) :
    ∀ a ∈ (sweep cfg t).address_space,
      surviving cfg (sweep cfg t) (a + cfg.size_gc_header) = false := by
  unfold sweep
  apply sweep_loop_allclear
  intro b hb
  cases hb

theorem run_queue_preserve_prop (cb : Int → Nat → GCState → GCState)
    (P : GCState → Prop) (hP : ∀ q x t, P t → P (cb q x t)) :
    ∀ (l : List (Int × Nat)) (t : GCState),
      P t → P (run_finalizer_queue cb l t) := by
  intro l
  induction l with
  | nil => intro t ht; exact ht
  | cons e rest ih =>
    intro t ht
    obtain ⟨fq, x⟩ := e
    rw [run_finalizer_queue]
    exact ih _ (hP fq x t ht)

theorem collect_allclear (cfg : GCConfig)
    (cb : Int → Nat → GCState → GCState) (roots : List Nat) (s : GCState)
    (hlock : s.collection_lock = false)
    (hcb : ∀ q x t,
      (∀ a ∈ t.address_space,
        surviving cfg t (a + cfg.size_gc_header) = false) →
      ∀ a ∈ (cb q x t).address_space,
        surviving cfg (cb q x t) (a + cfg.size_gc_header) = false) :
    ∀ a ∈ (collect cfg cb roots s).address_space,
      surviving cfg (collect cfg cb roots s) (a + cfg.size_gc_header) =
        false := by
  rw [collect_unlocked cfg cb roots s hlock]
  show ∀ a ∈ (execute_finalizers cb
      (collect_pre_exec cfg roots s)).address_space,
    surviving cfg (execute_finalizers cb (collect_pre_exec cfg roots s))
      (a + cfg.size_gc_header) = false
  unfold execute_finalizers
  apply run_queue_preserve_prop cb
    (fun t => ∀ a ∈ t.address_space,
      surviving cfg t (a + cfg.size_gc_header) = false) hcb
  show ∀ a ∈ (collect_pre_exec cfg roots s).address_space,
    surviving cfg (collect_pre_exec cfg roots s)
      (a + cfg.size_gc_header) = false
  unfold collect_pre_exec
  exact sweep_allclear cfg _

theorem allclear_after_alloc (cfg : GCConfig) {typeid : Nat}
    (htid : typeid < 2 ^ 16) (u : GCState)
    (hP : ∀ a ∈ u.address_space,
      surviving cfg u (a + cfg.size_gc_header) = false)
    (F : GCState) (result : Nat)
    (hT : F.tids = Function.update u.tids result (combine typeid 0))
    (hA : F.address_space = u.address_space ++ [result]) :
    ∀ a ∈ F.address_space,
      surviving cfg F (a + cfg.size_gc_header) = false := by
  intro a ha
  rw [surviving_eq_testBit, Nat.add_sub_cancel, hT]
  by_cases hr : a = result
  · rw [hr, Function.update_same]
    exact combine_testBit_of_small htid
  · rw [Function.update_noteq hr]
    rw [hA] at ha
    rcases List.mem_append.mp ha with h1 | h1
    · have hc := hP a h1
      rw [surviving_eq_testBit, Nat.add_sub_cancel] at hc
      exact hc
    · exact absurd (List.mem_singleton.mp h1) hr

/-- C9: the SURVIVING flag of every managed (registry) object is false
at every point outside an active cycle: the sweeper clears it on every
survivor it returns to the rebuilt registry, so it is false right after
sweep for any state, after any collect() call returns (for callbacks
that keep the property), and after either allocation entry point
returns (a fresh object starts with flags 0, its type id occupying only
the low 16 bits of the header word). -/
theorem C9_surviving_clear_outside_cycle (cfg : GCConfig)
    (cb : Int → Nat → GCState → GCState) (roots : List Nat)
    (typeid size : Nat) (nf fl cw : Bool)
    (length2 itemsize2 ofs2 : Nat) (s : GCState)
    (hlock : s.collection_lock = false)
    (htid : typeid < 2 ^ 16)
    (hP : ∀ a ∈ s.address_space,
      surviving cfg s (a + cfg.size_gc_header) = false)
    (hcb : ∀ q x t,
      (∀ a ∈ t.address_space,
        surviving cfg t (a + cfg.size_gc_header) = false) →
      ∀ a ∈ (cb q x t).address_space,
        surviving cfg (cb q x t) (a + cfg.size_gc_header) = false) :
    (∀ t : GCState, ∀ a ∈ (sweep cfg t).address_space,
      surviving cfg (sweep cfg t) (a + cfg.size_gc_header) = false) ∧
    (∀ a ∈ (collect cfg cb roots s).address_space,
      surviving cfg (collect cfg cb roots s) (a + cfg.size_gc_header) =
        false) ∧
    (∀ a ∈ (malloc_fixedsize cfg cb roots typeid size nf fl cw
        s).1.address_space,
      surviving cfg (malloc_fixedsize cfg cb roots typeid size nf fl cw
        s).1 (a + cfg.size_gc_header) = false) ∧
    (itemsize2 * length2 ≤ sys_maxint →
      cfg.size_gc_header + size + itemsize2 * length2 ≤ sys_maxint →
      ∀ a ∈ (malloc_varsize cfg cb roots typeid length2 size itemsize2
          ofs2 s).1.address_space,
        surviving cfg (malloc_varsize cfg cb roots typeid length2 size
          itemsize2 ofs2 s).1 (a + cfg.size_gc_header) = false) := by
  have hu : ∀ a ∈ (if ((cfg.size_gc_header + size : Nat) : Int) +
        s.cur_heap_size > s.heap_growth_factor * s.prev_heap_size
      then collect cfg cb roots s else s).address_space,
      surviving cfg (if ((cfg.size_gc_header + size : Nat) : Int) +
        s.cur_heap_size > s.heap_growth_factor * s.prev_heap_size
      then collect cfg cb roots s else s) (a + cfg.size_gc_header) =
        false := by
    split
    · exact collect_allclear cfg cb roots s hlock hcb
    · exact hP
  refine ⟨sweep_allclear cfg, collect_allclear cfg cb roots s hlock hcb,
    ?_, ?_⟩
  · cases nf <;> cases cw <;>
      exact allclear_after_alloc cfg htid _ hu _ _ rfl rfl
  · intro hov1 hov2
    have hu2 : ∀ a ∈ (if ((cfg.size_gc_header + size + itemsize2 * length2 :
          Nat) : Int) + s.cur_heap_size >
          s.heap_growth_factor * s.prev_heap_size
        then collect cfg cb roots s else s).address_space,
        surviving cfg (if ((cfg.size_gc_header + size + itemsize2 *
          length2 : Nat) : Int) + s.cur_heap_size >
          s.heap_growth_factor * s.prev_heap_size
        then collect cfg cb roots s else s) (a + cfg.size_gc_header) =
          false := by
      split
      · exact collect_allclear cfg cb roots s hlock hcb
      · exact hP
    have hm : malloc_varsize cfg cb roots typeid length2 size itemsize2
        ofs2 s = malloc_varsize cfg cb roots typeid length2 size itemsize2
        ofs2 s := rfl
    unfold malloc_varsize ovfcheck
    dsimp only
    rw [if_neg (not_lt.mpr hov1)]
    dsimp only
    rw [if_neg (not_lt.mpr hov2)]
    apply allclear_after_alloc cfg htid _ hu2
    · rfl
    · rfl

/-- C9 witness: the flag-clearing theorem applied to the fresh example
heap with trivial callbacks. -/
theorem C9_surviving_clear_outside_cycle_witness :
    exS0.collection_lock = false ∧ 1 < 2 ^ 16 ∧
    ((∀ t : GCState, ∀ a ∈ (sweep exCfg t).address_space,
      surviving exCfg (sweep exCfg t) (a + exCfg.size_gc_header) = false) ∧
    (∀ a ∈ (collect exCfg exCb [] exS0).address_space,
      surviving exCfg (collect exCfg exCb [] exS0)
        (a + exCfg.size_gc_header) = false) ∧
    (∀ a ∈ (malloc_fixedsize exCfg exCb [] 1 16 false false false
        exS0).1.address_space,
      surviving exCfg (malloc_fixedsize exCfg exCb [] 1 16 false false
        false exS0).1 (a + exCfg.size_gc_header) = false) ∧
    (2 * 4 ≤ sys_maxint →
      exCfg.size_gc_header + 16 + 2 * 4 ≤ sys_maxint →
      ∀ a ∈ (malloc_varsize exCfg exCb [] 1 4 16 2 0
          exS0).1.address_space,
        surviving exCfg (malloc_varsize exCfg exCb [] 1 4 16 2 0
          exS0).1 (a + exCfg.size_gc_header) = false)) :=
  ⟨rfl, by decide,
   C9_surviving_clear_outside_cycle exCfg exCb [] 1 16 false false false
     4 2 0 exS0 rfl (by decide)
     (fun a ha => absurd ha (List.not_mem_nil a))
     (fun _ _ _ h => h)⟩

/-! ### Mark only ORs the SURVIVING bit into headers -/

/-- Every header either is untouched or has exactly GCFLAG_SURVIVING
ORed in, relative to the base plane. -/
def TidsOr (base : Nat → Nat) (t : GCState) : Prop :=
  ∀ addr, t.tids addr = base addr ∨
    t.tids addr = base addr ||| GCFLAG_SURVIVING

theorem lor_flag_idem (t : Nat) :
    (t ||| GCFLAG_SURVIVING) ||| GCFLAG_SURVIVING =
      t ||| GCFLAG_SURVIVING := by
  apply Nat.eq_of_testBit_eq
  intro i
  simp only [Nat.testBit_lor, Bool.or_assoc, Bool.or_self]

theorem TidsOr.rfl_base {t : GCState} : TidsOr t.tids t :=
  fun _ => Or.inl (Eq.refl _)

theorem tids_or_trans {base : Nat → Nat} {t u : GCState}
    (h1 : TidsOr base t) (h2 : TidsOr t.tids u) : TidsOr base u := by
  intro addr
  rcases h2 addr with h | h
  · rw [h]
    exact h1 addr
  · rw [h]
    rcases h1 addr with h3 | h3
    · rw [h3]
      exact Or.inr (Eq.refl _)
    · rw [h3, lor_flag_idem]
      exact Or.inr (Eq.refl _)

theorem tids_or_set (cfg : GCConfig) (c : Nat) (s : GCState) :
    TidsOr s.tids (set_surviving cfg c s) := by
  intro addr
  unfold set_surviving
  dsimp only
  by_cases h : addr = c - cfg.size_gc_header
  · rw [h, Function.update_same]
    exact Or.inr (Eq.refl _)
  · rw [Function.update_noteq h]
    exact Or.inl (Eq.refl _)

theorem tids_or_callback (cfg : GCConfig) (c : Nat)
    (p : GCState × List Nat) :
    TidsOr p.1.tids (mark_surviving_callback cfg c p).1 := by
  unfold mark_surviving_callback
  split
  · exact TidsOr.rfl_base
  · exact tids_or_set cfg c p.1

theorem tids_or_foldl (cfg : GCConfig) (l : List Nat) :
    ∀ p : GCState × List Nat,
      TidsOr p.1.tids
        (l.foldl (fun q c => mark_surviving_callback cfg c q) p).1 := by
  induction l with
  | nil => intro p; exact TidsOr.rfl_base
  | cons c l ih =>
    intro p
    exact tids_or_trans (tids_or_callback cfg c p) (ih _)

theorem tids_or_mark_loop (cfg : GCConfig) (fuel : Nat) :
    ∀ (s : GCState) (st : List Nat),
      TidsOr s.tids (mark_loop cfg fuel s st) := by
  induction fuel with
  | zero => intro s st; exact TidsOr.rfl_base
  | succ fuel ih =>
    intro s st
    cases st with
    | nil => exact TidsOr.rfl_base
    | cons addr rest =>
      exact tids_or_trans (tids_or_foldl cfg (s.refs addr) (s, rest)) (ih _ _)

theorem tids_or_mark_recursive (cfg : GCConfig) (root : Nat)
    (s : GCState) : TidsOr s.tids (mark_recursive cfg root s) :=
  tids_or_trans (tids_or_set cfg root s) (tids_or_mark_loop cfg _ _ _)

theorem tids_or_mark (cfg : GCConfig) (roots : List Nat) :
    ∀ s : GCState, TidsOr s.tids (mark cfg roots s) := by
  induction roots with
  | nil => intro s; exact TidsOr.rfl_base
  | cons r roots ih =>
    intro s
    exact tids_or_trans (tids_or_mark_recursive cfg r s) (ih _)

/-- On a closed heap, reachability never leaves the object-pointer
set. -/
theorem reach_in_O {s : GCState} {O : List Nat}
    (hclosed : ∀ p ∈ O, ∀ c ∈ s.refs p, c ∈ O)
    {r x : Nat} (hr : r ∈ O) (hreach : Reaches s r x) : x ∈ O := by
  induction hreach with
  | refl => exact hr
  | tail hab hbc ih => exact hclosed _ ih _ hbc

/-! ### More projections of the pre-weak and pre-sweep phases -/

theorem collect_pre_weak_addr (cfg : GCConfig) (roots : List Nat)
    (s : GCState) :
    (collect_pre_weak cfg roots s).address_space = s.address_space := by
  unfold collect_pre_weak
  dsimp only
  split
  · exact (collect_mark_props cfg roots s).2.2.2.1
  · rw [(deal_with_props cfg _).2.2.2.2.2.1]
    exact (collect_mark_props cfg roots s).2.2.2.1

theorem collect_pre_weak_refs (cfg : GCConfig) (roots : List Nat)
    (s : GCState) :
    (collect_pre_weak cfg roots s).refs = s.refs := by
  unfold collect_pre_weak
  dsimp only
  split
  · exact (collect_mark_props cfg roots s).1
  · rw [(deal_with_props cfg _).2.2.1]
    exact (collect_mark_props cfg roots s).1

theorem collect_pre_weak_cur (cfg : GCConfig) (roots : List Nat)
    (s : GCState) :
    (collect_pre_weak cfg roots s).cur_heap_size = s.cur_heap_size := by
  unfold collect_pre_weak
  dsimp only
  split
  · exact (collect_mark_props cfg roots s).2.2.2.2.2.2.2.2.2.2.2.1
  · rw [(deal_with_props cfg _).2.2.2.2.2.2.2.2.1]
    exact (collect_mark_props cfg roots s).2.2.2.2.2.2.2.2.2.2.2.1

theorem collect_pre_weak_varlength (cfg : GCConfig) (roots : List Nat)
    (s : GCState) :
    (collect_pre_weak cfg roots s).varlength = s.varlength := by
  unfold collect_pre_weak
  dsimp only
  split
  · exact (collect_mark_props cfg roots s).2.2.1
  · rw [(deal_with_props cfg _).2.2.2.2.1]
    exact (collect_mark_props cfg roots s).2.2.1

theorem collect_pre_sweep_addr (cfg : GCConfig) (roots : List Nat)
    (s : GCState) :
    (collect_pre_sweep cfg roots s).address_space = s.address_space := by
  unfold collect_pre_sweep
  dsimp only
  split
  · exact collect_pre_weak_addr cfg roots s
  · rw [invalidate_addr]
    exact collect_pre_weak_addr cfg roots s

theorem collect_pre_sweep_refs (cfg : GCConfig) (roots : List Nat)
    (s : GCState) :
    (collect_pre_sweep cfg roots s).refs = s.refs := by
  unfold collect_pre_sweep
  dsimp only
  split
  · exact collect_pre_weak_refs cfg roots s
  · rw [invalidate_refs]
    exact collect_pre_weak_refs cfg roots s

theorem collect_pre_sweep_cur (cfg : GCConfig) (roots : List Nat)
    (s : GCState) :
    (collect_pre_sweep cfg roots s).cur_heap_size = s.cur_heap_size := by
  unfold collect_pre_sweep
  dsimp only
  split
  · exact collect_pre_weak_cur cfg roots s
  · rw [invalidate_cur]
    exact collect_pre_weak_cur cfg roots s

theorem collect_pre_sweep_freed (cfg : GCConfig) (roots : List Nat)
    (s : GCState) :
    (collect_pre_sweep cfg roots s).freed = s.freed := by
  unfold collect_pre_sweep
  dsimp only
  split
  · exact collect_pre_weak_freed cfg roots s
  · rw [invalidate_freed]
    exact collect_pre_weak_freed cfg roots s

theorem collect_pre_sweep_varlength (cfg : GCConfig) (roots : List Nat)
    (s : GCState) :
    (collect_pre_sweep cfg roots s).varlength = s.varlength := by
  unfold collect_pre_sweep
  dsimp only
  split
  · exact collect_pre_weak_varlength cfg roots s
  · rw [invalidate_varlength]
    exact collect_pre_weak_varlength cfg roots s

theorem collect_pre_sweep_surviving (cfg : GCConfig) (roots : List Nat)
    (s : GCState) :
    surviving cfg (collect_pre_sweep cfg roots s) =
      surviving cfg (collect_pre_weak cfg roots s) := by
  unfold collect_pre_sweep
  dsimp only
  split
  · rfl
  · exact surviving_congr (invalidate_tids cfg _)

theorem collect_pre_sweep_tids (cfg : GCConfig) (roots : List Nat)
    (s : GCState) :
    (collect_pre_sweep cfg roots s).tids =
      (collect_pre_weak cfg roots s).tids := by
  unfold collect_pre_sweep
  dsimp only
  split
  · rfl
  · exact invalidate_tids cfg _

/-- Reachability from any root of a list, as the spec states it. -/
def root_reachable (s : GCState) (roots : List Nat) (x : Nat) : Prop :=
  ∃ r ∈ roots, Reaches s r x

/-- Membership of the subgraph revived for a dead finalizer-registered
object: reachable from a finalizer-registry entry whose object the mark
phase did not reach from the roots. -/
def finalizer_revived (s : GCState) (roots : List Nat) (x : Nat) : Prop :=
  ∃ e ∈ s.objects_with_finalizers,
    ¬root_reachable s roots e.1 ∧ Reaches s e.1 x

/-- Characterization of one full unlocked collection cycle up to the
sweep, on a well-formed heap (positive start addresses, duplicate-free
registry, reference closure inside the registry's object pointers,
roots and finalizer-registered objects inside it, and all SURVIVING
flags clear at entry): an object is flagged before sweep exactly when
it is root-reachable or revived by a dead finalizer-registered object;
sweep keeps exactly the flagged registry entries, frees the rest once
each in registry order, subtracts their swept cost, and restores every
header word to its start-of-cycle value. -/
theorem collect_char (cfg : GCConfig) (roots : List Nat) (s : GCState)
    (hpos : ∀ a ∈ s.address_space, 0 < a)
    (hnd : s.address_space.Nodup)
    (hclosed : ∀ p ∈ objptrs cfg s.address_space, ∀ c ∈ s.refs p,
      c ∈ objptrs cfg s.address_space)
    (hroots : ∀ r ∈ roots, r ∈ objptrs cfg s.address_space)
    (hfins : ∀ e ∈ s.objects_with_finalizers,
      e.1 ∈ objptrs cfg s.address_space)
    (hclear : ∀ p, surviving cfg s p = false) :
    (∀ x, surviving cfg (collect_mark cfg roots s) x = true ↔
        root_reachable s roots x) ∧
    (∀ x, surviving cfg (collect_pre_sweep cfg roots s) x = true ↔
        (root_reachable s roots x ∨ finalizer_revived s roots x)) ∧
    (∀ p, surviving cfg (collect_pre_sweep cfg roots s) p = true →
      ∀ c ∈ s.refs p,
        surviving cfg (collect_pre_sweep cfg roots s) c = true) ∧
    (collect_pre_exec cfg roots s).objects_with_finalizers =
      s.objects_with_finalizers.filter
        (fun e => surviving cfg (collect_mark cfg roots s) e.1) ∧
    (collect_pre_exec cfg roots s).address_space =
      s.address_space.filter
        (fun a => surviving cfg (collect_pre_sweep cfg roots s)
          (a + cfg.size_gc_header)) ∧
    (collect_pre_exec cfg roots s).freed =
      s.freed ++ s.address_space.filter
        (fun a => !surviving cfg (collect_pre_sweep cfg roots s)
          (a + cfg.size_gc_header)) ∧
    (collect_pre_exec cfg roots s).cur_heap_size =
      s.cur_heap_size -
        ((s.address_space.filter
            (fun a => !surviving cfg (collect_pre_sweep cfg roots s)
              (a + cfg.size_gc_header))).map
          (fun a => (get_size cfg (collect_pre_sweep cfg roots s)
            (a + cfg.size_gc_header) : Int))).sum ∧
    (collect_pre_exec cfg roots s).tids = s.tids := by
  have HO : ∀ p ∈ objptrs cfg s.address_space, cfg.size_gc_header < p := by
    intro p hp
    obtain ⟨a, ha, rfl⟩ := List.mem_map.mp hp
    have h0 := hpos a ha
    omega
  have hclear_e : ∀ p, surviving cfg (collect_enter s) p = false := hclear
  have hfc1 : ∀ p, surviving cfg (collect_enter s) p = true →
      ∀ c ∈ (collect_enter s).refs p,
        surviving cfg (collect_enter s) c = true := by
    intro p hp
    rw [hclear_e p] at hp
    exact (Bool.noConfusion hp)
  have hlen1 : (objptrs cfg s.address_space).length ≤
      (collect_enter s).address_space.length :=
    le_of_eq (List.length_map _ _)
  have hm := mark_spec cfg (objptrs cfg s.address_space) HO roots
    (collect_enter s) hclosed hroots hfc1 hlen1
  have hK : ∀ x, surviving cfg (collect_mark cfg roots s) x = true ↔
      root_reachable s roots x := by
    intro x
    show surviving cfg (mark cfg roots (collect_enter s)) x = true ↔ _
    rw [hm.1 x]
    constructor
    · rintro (hs | h)
      · rw [hclear_e x] at hs
        exact (Bool.noConfusion hs)
      · exact h
    · intro h
      exact Or.inr h
  have hmB : ∀ p, surviving cfg (collect_mark cfg roots s) p = true →
      ∀ c ∈ s.refs p, surviving cfg (collect_mark cfg roots s) c = true := by
    intro p hp c hc
    exact hm.2 p hp c hc
  have hfins_m : (collect_mark cfg roots s).objects_with_finalizers =
      s.objects_with_finalizers := (collect_mark_props cfg roots s).2.2.2.2.2.1
  have hrefs_m : (collect_mark cfg roots s).refs = s.refs :=
    (collect_mark_props cfg roots s).1
  have hstep2 : (∀ x, surviving cfg (collect_pre_weak cfg roots s) x = true ↔
        (root_reachable s roots x ∨ finalizer_revived s roots x)) ∧
      (∀ p, surviving cfg (collect_pre_weak cfg roots s) p = true →
        ∀ c ∈ s.refs p,
          surviving cfg (collect_pre_weak cfg roots s) c = true) ∧
      TidsOr s.tids (collect_pre_weak cfg roots s) ∧
      (collect_pre_weak cfg roots s).objects_with_finalizers =
        s.objects_with_finalizers.filter
          (fun e => surviving cfg (collect_mark cfg roots s) e.1) := by
    by_cases hE : (collect_mark cfg roots s).objects_with_finalizers.isEmpty
      = true
    · have hpw : collect_pre_weak cfg roots s = collect_mark cfg roots s := by
        unfold collect_pre_weak
        dsimp only
        rw [if_pos hE]
      have hse : s.objects_with_finalizers = [] := by
        rw [← hfins_m]
        exact List.isEmpty_iff.mp hE
      refine ⟨?_, ?_, ?_, ?_⟩
      · intro x
        rw [hpw, hK x]
        simp [finalizer_revived, hse]
      · intro p hp c hc
        rw [hpw] at hp ⊢
        exact hmB p hp c hc
      · rw [hpw]
        exact tids_or_mark cfg roots (collect_enter s)
      · rw [hpw, hfins_m, hse]
        rfl
    · have hpw : collect_pre_weak cfg roots s =
          deal_with_objects_with_finalizers cfg (collect_mark cfg roots s) := by
        unfold collect_pre_weak
        dsimp only
        rw [if_neg hE]
      have hcl2 : ∀ p ∈ objptrs cfg s.address_space,
          ∀ c ∈ (sched_state cfg (collect_mark cfg roots s)).refs p,
            c ∈ objptrs cfg s.address_space := by
        intro p hp c hc
        refine hclosed p hp c ?_
        rw [← hrefs_m]
        exact hc
      have hdeadO : ∀ d ∈ dead_finalizer_objs cfg (collect_mark cfg roots s),
          d ∈ objptrs cfg s.address_space := by
        intro d hd
        unfold dead_finalizer_objs at hd
        obtain ⟨e, he, rfl⟩ := List.mem_map.mp hd
        refine hfins e ?_
        rw [← hfins_m]
        exact List.mem_of_mem_filter he
      have hfc2 : ∀ p,
          surviving cfg (sched_state cfg (collect_mark cfg roots s)) p =
            true →
          ∀ c ∈ (sched_state cfg (collect_mark cfg roots s)).refs p,
            surviving cfg (sched_state cfg (collect_mark cfg roots s)) c =
              true := by
        intro p hp c hc
        have hc2 : c ∈ s.refs p := by
          rw [← hrefs_m]
          exact hc
        exact hmB p hp c hc2
      have hlen2 : (objptrs cfg s.address_space).length ≤
          (sched_state cfg (collect_mark cfg roots s)).address_space.length := by
        show (objptrs cfg s.address_space).length ≤
          (collect_mark cfg roots s).address_space.length
        rw [(collect_mark_props cfg roots s).2.2.2.1]
        exact le_of_eq (List.length_map _ _)
      have hm2 := mark_spec cfg (objptrs cfg s.address_space) HO
        (dead_finalizer_objs cfg (collect_mark cfg roots s))
        (sched_state cfg (collect_mark cfg roots s)) hcl2 hdeadO hfc2 hlen2
      have hsurv_dw : surviving cfg
          (deal_with_objects_with_finalizers cfg (collect_mark cfg roots s)) =
          surviving cfg (mark cfg
            (dead_finalizer_objs cfg (collect_mark cfg roots s))
            (sched_state cfg (collect_mark cfg roots s))) := by
        rw [deal_with_eq]
        rfl
      have hre : Reaches (sched_state cfg (collect_mark cfg roots s)) =
          Reaches s := by
        apply reaches_congr
        show (collect_mark cfg roots s).refs = s.refs
        exact hrefs_m
      have hss : ∀ y, surviving cfg
          (sched_state cfg (collect_mark cfg roots s)) y =
          surviving cfg (collect_mark cfg roots s) y := fun _ => rfl
      have hiff : ∀ x,
          (∃ r ∈ dead_finalizer_objs cfg (collect_mark cfg roots s),
            Reaches s r x) ↔ finalizer_revived s roots x := by
        intro x
        constructor
        · rintro ⟨r, hr, hrx⟩
          unfold dead_finalizer_objs at hr
          obtain ⟨e, he, rfl⟩ := List.mem_map.mp hr
          obtain ⟨he1, he2⟩ := List.mem_filter.mp he
          have he2b : (!surviving cfg (collect_mark cfg roots s) e.1) = true :=
            he2
          refine ⟨e, by rw [← hfins_m]; exact he1, ?_, hrx⟩
          intro hrr
          rw [(hK e.1).mpr hrr] at he2b
          exact Bool.noConfusion he2b
        · rintro ⟨e, he, hnr, hrx⟩
          refine ⟨e.1, ?_, hrx⟩
          unfold dead_finalizer_objs
          apply List.mem_map.mpr
          refine ⟨e, List.mem_filter.mpr ⟨by rw [hfins_m]; exact he, ?_⟩, rfl⟩
          have hfalse : surviving cfg (collect_mark cfg roots s) e.1 =
              false := by
            cases hsb : surviving cfg (collect_mark cfg roots s) e.1 with
            | false => rfl
            | true => exact absurd ((hK e.1).mp hsb) hnr
          show (!surviving cfg (collect_mark cfg roots s) e.1) = true
          rw [hfalse]
          rfl
      refine ⟨?_, ?_, ?_, ?_⟩
      · intro x
        rw [hpw, hsurv_dw, hm2.1 x, hss, hre, hK x, hiff x]
      · intro p hp c hc
        rw [hpw, hsurv_dw] at hp ⊢
        have hc2 : c ∈ (sched_state cfg (collect_mark cfg roots s)).refs p := by
          show c ∈ (collect_mark cfg roots s).refs p
          rw [hrefs_m]
          exact hc
        exact hm2.2 p hp c hc2
      · rw [hpw, deal_with_eq]
        refine tids_or_trans (tids_or_mark cfg roots (collect_enter s)) ?_
        exact tids_or_mark cfg
          (dead_finalizer_objs cfg (collect_mark cfg roots s))
          (sched_state cfg (collect_mark cfg roots s))
      · rw [hpw, (deal_with_props cfg (collect_mark cfg roots s)).1]
        unfold kept_finalizer_entries
        rw [hfins_m]
  obtain ⟨hA2, hB2, hTor_pw, hfins_pw⟩ := hstep2
  have hps_surv := collect_pre_sweep_surviving cfg roots s
  have hA3 : ∀ x, surviving cfg (collect_pre_sweep cfg roots s) x = true ↔
      (root_reachable s roots x ∨ finalizer_revived s roots x) := by
    intro x
    rw [hps_surv]
    exact hA2 x
  have hB3 : ∀ p, surviving cfg (collect_pre_sweep cfg roots s) p = true →
      ∀ c ∈ s.refs p,
        surviving cfg (collect_pre_sweep cfg roots s) c = true := by
    intro p hp c hc
    rw [hps_surv] at hp ⊢
    exact hB2 p hp c hc
  have hG : (collect_pre_exec cfg roots s).objects_with_finalizers =
      s.objects_with_finalizers.filter
        (fun e => surviving cfg (collect_mark cfg roots s) e.1) := by
    rw [collect_pre_exec_fins]
    exact hfins_pw
  have hTor_ps : TidsOr s.tids (collect_pre_sweep cfg roots s) := by
    intro addr
    rw [collect_pre_sweep_tids cfg roots s]
    exact hTor_pw addr
  have hps_addr := collect_pre_sweep_addr cfg roots s
  have hnd_ps : (collect_pre_sweep cfg roots s).address_space.Nodup := by
    rw [hps_addr]
    exact hnd
  have hsw := sweep_spec cfg (collect_pre_sweep cfg roots s) hnd_ps
  have hpred : ∀ a, ((collect_pre_sweep cfg roots s).tids a &&&
        GCFLAG_SURVIVING != 0) =
      surviving cfg (collect_pre_sweep cfg roots s)
        (a + cfg.size_gc_header) := by
    intro a
    unfold surviving header_tid
    rw [Nat.add_sub_cancel]
  have hkept : kept_addrs (collect_pre_sweep cfg roots s) s.address_space =
      s.address_space.filter
        (fun a => surviving cfg (collect_pre_sweep cfg roots s)
          (a + cfg.size_gc_header)) := by
    unfold kept_addrs
    exact List.filter_congr (fun a _ => hpred a)
  have hdead : dead_addrs (collect_pre_sweep cfg roots s) s.address_space =
      s.address_space.filter
        (fun a => !surviving cfg (collect_pre_sweep cfg roots s)
          (a + cfg.size_gc_header)) := by
    unfold dead_addrs
    refine List.filter_congr ?_
    intro a _
    rw [hpred a]
  have hD : (collect_pre_exec cfg roots s).address_space =
      s.address_space.filter
        (fun a => surviving cfg (collect_pre_sweep cfg roots s)
          (a + cfg.size_gc_header)) := by
    show (sweep cfg (collect_pre_sweep cfg roots s)).address_space = _
    rw [hsw]
    show kept_addrs (collect_pre_sweep cfg roots s)
        (collect_pre_sweep cfg roots s).address_space = _
    rw [hps_addr, hkept]
  have hE2 : (collect_pre_exec cfg roots s).freed =
      s.freed ++ s.address_space.filter
        (fun a => !surviving cfg (collect_pre_sweep cfg roots s)
          (a + cfg.size_gc_header)) := by
    show (sweep cfg (collect_pre_sweep cfg roots s)).freed = _
    rw [hsw]
    show (collect_pre_sweep cfg roots s).freed ++
        dead_addrs (collect_pre_sweep cfg roots s)
          (collect_pre_sweep cfg roots s).address_space = _
    rw [collect_pre_sweep_freed cfg roots s, hps_addr, hdead]
  have hF : (collect_pre_exec cfg roots s).cur_heap_size =
      s.cur_heap_size -
        ((s.address_space.filter
            (fun a => !surviving cfg (collect_pre_sweep cfg roots s)
              (a + cfg.size_gc_header))).map
          (fun a => (get_size cfg (collect_pre_sweep cfg roots s)
            (a + cfg.size_gc_header) : Int))).sum := by
    show (sweep cfg (collect_pre_sweep cfg roots s)).cur_heap_size = _
    rw [hsw]
    show (collect_pre_sweep cfg roots s).cur_heap_size -
        dead_cost cfg (collect_pre_sweep cfg roots s)
          (collect_pre_sweep cfg roots s).address_space = _
    rw [collect_pre_sweep_cur cfg roots s, hps_addr]
    unfold dead_cost
    rw [hdead]
  have hclear2 : ∀ a, (s.tids a &&& GCFLAG_SURVIVING != 0) = false := by
    intro a
    have h := hclear (a + cfg.size_gc_header)
    unfold surviving header_tid at h
    rwa [Nat.add_sub_cancel] at h
  have hflagged : ∀ a, ((collect_pre_sweep cfg roots s).tids a &&&
        GCFLAG_SURVIVING != 0) = true →
      (collect_pre_sweep cfg roots s).tids a =
        s.tids a ||| GCFLAG_SURVIVING := by
    intro a ha
    rcases hTor_ps a with h | h
    · rw [h, hclear2 a] at ha
      exact Bool.noConfusion ha
    · exact h
  have hunflagged : ∀ a, ((collect_pre_sweep cfg roots s).tids a &&&
        GCFLAG_SURVIVING != 0) = false →
      (collect_pre_sweep cfg roots s).tids a = s.tids a := by
    intro a ha
    rcases hTor_ps a with h | h
    · exact h
    · rw [h, and_flag_bne, testBit_or_flag] at ha
      exact Bool.noConfusion ha
  have hI : (collect_pre_exec cfg roots s).tids = s.tids := by
    show (sweep cfg (collect_pre_sweep cfg roots s)).tids = s.tids
    rw [hsw]
    funext a
    show clear_flags (collect_pre_sweep cfg roots s).tids
      (kept_addrs (collect_pre_sweep cfg roots s)
        (collect_pre_sweep cfg roots s).address_space) a = s.tids a
    unfold clear_flags
    by_cases hmem : a ∈ kept_addrs (collect_pre_sweep cfg roots s)
        (collect_pre_sweep cfg roots s).address_space
    · rw [if_pos hmem]
      have hfl : ((collect_pre_sweep cfg roots s).tids a &&&
          GCFLAG_SURVIVING != 0) = true := (List.mem_filter.mp hmem).2
      rw [hflagged a hfl]
      refine ldiff_or_cancel ?_
      have h32 := hclear2 a
      rw [and_flag_bne] at h32
      exact h32
    · rw [if_neg hmem]
      cases hfl : ((collect_pre_sweep cfg roots s).tids a &&&
          GCFLAG_SURVIVING != 0) with
      | false => exact hunflagged a hfl
      | true =>
        exfalso
        have hsv : surviving cfg (collect_pre_sweep cfg roots s)
            (a + cfg.size_gc_header) = true := by
          rw [← hpred a]
          exact hfl
        have hOa : a + cfg.size_gc_header ∈ objptrs cfg s.address_space := by
          rcases (hA3 _).mp hsv with ⟨r, hr, hrx⟩ | ⟨e, he, -, hrx⟩
          · exact reach_in_O hclosed (hroots r hr) hrx
          · exact reach_in_O hclosed (hfins e he) hrx
        obtain ⟨b, hb, hba⟩ := List.mem_map.mp hOa
        have hab : b = a := Nat.add_right_cancel hba
        apply hmem
        unfold kept_addrs
        apply List.mem_filter.mpr
        refine ⟨?_, hfl⟩
        rw [hps_addr, ← hab]
        exact hb
  exact ⟨hK, hA3, hB3, hG, hD, hE2, hF, hI⟩

/-- The two-object heap for the reachability claims: objects at start
addresses 100 and 200 (object pointers 108 and 208), the finalizer
registry holds object 108 with finalizer-queue index 5, and 108
references 208.  Neither object is reachable from the empty root set. -/
def exReviveState : GCState :=
  { exS0 with
    address_space := [100, 200]
    objects_with_finalizers := [(108, 5)]
    refs := fun p => if p = 108 then [208] else []
    cur_heap_size := 48 }

/-- A one-object heap whose object is rooted and has no finalizer. -/
def exRootedState : GCState :=
  { exS0 with
    address_space := [100]
    cur_heap_size := 24 }

/-- On a state whose header plane is all zero, no object tests as
surviving. -/
theorem surviving_of_tids_zero {cfg : GCConfig} {s : GCState}
    (h : ∀ a, s.tids a = 0) (p : Nat) : surviving cfg s p = false := by
  rw [surviving_eq_testBit, h, Nat.zero_testBit]

/-- C2 counterexample: with an empty root set on the two-object heap,
object 208 is not reachable from any root and carries no finalizer
entry of its own, yet after collect() it is still in the allocation
registry and its memory was never released.  Reviving a dead
finalizer-registered object re-marks its whole reference subgraph, so
"not reachable from a root and no pending finalizer entry" does not
imply "absent and freed". -/
theorem C2_unreachable_kept_counterexample :
    (¬ root_reachable exReviveState [] 208) ∧
    (∀ q : Int, (208, q) ∉ exReviveState.objects_with_finalizers) ∧
    200 ∈ (collect exCfg exCb [] exReviveState).address_space ∧
    (collect exCfg exCb [] exReviveState).freed.count 200 = 0 := by
  refine ⟨?_, ?_, ?_, ?_⟩
  · rintro ⟨r, hr, -⟩
    exact absurd hr (List.not_mem_nil r)
  · intro q h
    have h2 : ((208 : Nat), q) = ((108 : Nat), (5 : Int)) :=
      List.mem_singleton.mp h
    have h3 : (208 : Nat) = 108 := congrArg Prod.fst h2
    exact absurd h3 (by decide)
  · decide
  · decide

/-- C2 (amended): on a well-formed unlocked heap, with finalizer
callbacks that leave the registry and the free log alone, after
collect() a registry start address is present exactly when its object
pointer is root-reachable or revived by a dead finalizer-registered
object; an object that is neither has its raw memory released exactly
once; an object that is either is not released. -/
theorem C2_collect_reach_registry (cfg : GCConfig)
    (cb : Int → Nat → GCState → GCState) (roots : List Nat) (s : GCState)
    (hlock : s.collection_lock = false)
    (hpos : ∀ a ∈ s.address_space, 0 < a)
    (hnd : s.address_space.Nodup)
    (hclosed : ∀ p ∈ objptrs cfg s.address_space, ∀ c ∈ s.refs p,
      c ∈ objptrs cfg s.address_space)
    (hroots : ∀ r ∈ roots, r ∈ objptrs cfg s.address_space)
    (hfins : ∀ e ∈ s.objects_with_finalizers,
      e.1 ∈ objptrs cfg s.address_space)
    (hclear : ∀ p, surviving cfg s p = false)
    (hcb_addr : ∀ q x t, (cb q x t).address_space = t.address_space)
    (hcb_freed : ∀ q x t, (cb q x t).freed = t.freed) :
    (∀ a ∈ s.address_space,
      (a ∈ (collect cfg cb roots s).address_space ↔
        (root_reachable s roots (a + cfg.size_gc_header) ∨
          finalizer_revived s roots (a + cfg.size_gc_header)))) ∧
    (∀ a ∈ s.address_space,
      ¬(root_reachable s roots (a + cfg.size_gc_header) ∨
          finalizer_revived s roots (a + cfg.size_gc_header)) →
        (collect cfg cb roots s).freed.count a = s.freed.count a + 1) ∧
    (∀ a ∈ s.address_space,
      (root_reachable s roots (a + cfg.size_gc_header) ∨
          finalizer_revived s roots (a + cfg.size_gc_header)) →
        (collect cfg cb roots s).freed.count a = s.freed.count a) := by
  obtain ⟨hK, hA3, hB3, hG, hD, hE2, hF, hI⟩ :=
    collect_char cfg roots s hpos hnd hclosed hroots hfins hclear
  have hcoll_addr : (collect cfg cb roots s).address_space =
      (collect_pre_exec cfg roots s).address_space := by
    rw [collect_unlocked cfg cb roots s hlock]
    show (execute_finalizers cb (collect_pre_exec cfg roots s)).address_space
      = _
    unfold execute_finalizers
    exact run_queue_preserve cb (fun t => t.address_space) hcb_addr _ _
  have hcoll_freed : (collect cfg cb roots s).freed =
      (collect_pre_exec cfg roots s).freed := by
    rw [collect_unlocked cfg cb roots s hlock]
    show (execute_finalizers cb (collect_pre_exec cfg roots s)).freed = _
    unfold execute_finalizers
    exact run_queue_preserve cb (fun t => t.freed) hcb_freed _ _
  refine ⟨?_, ?_, ?_⟩
  · intro a ha
    rw [hcoll_addr, hD, List.mem_filter]
    constructor
    · rintro ⟨-, hp⟩
      exact (hA3 _).mp hp
    · intro hp
      exact ⟨ha, (hA3 _).mpr hp⟩
  · intro a ha hdead
    have hsurvF : surviving cfg (collect_pre_sweep cfg roots s)
        (a + cfg.size_gc_header) = false := by
      cases hx : surviving cfg (collect_pre_sweep cfg roots s)
          (a + cfg.size_gc_header) with
      | false => rfl
      | true => exact absurd ((hA3 _).mp hx) hdead
    rw [hcoll_freed, hE2, List.count_append]
    have hone : (s.address_space.filter
        (fun a => !surviving cfg (collect_pre_sweep cfg roots s)
          (a + cfg.size_gc_header))).count a = 1 := by
      apply count_eq_one_of_nodup_mem (hnd.filter _)
      apply List.mem_filter.mpr
      refine ⟨ha, ?_⟩
      show (!surviving cfg (collect_pre_sweep cfg roots s)
        (a + cfg.size_gc_header)) = true
      rw [hsurvF]
      rfl
    rw [hone]
  · intro a ha hlive
    rw [hcoll_freed, hE2, List.count_append]
    have hzero : (s.address_space.filter
        (fun a => !surviving cfg (collect_pre_sweep cfg roots s)
          (a + cfg.size_gc_header))).count a = 0 := by
      apply List.count_eq_zero.mpr
      intro hmem
      have hb : (!surviving cfg (collect_pre_sweep cfg roots s)
          (a + cfg.size_gc_header)) = true := (List.mem_filter.mp hmem).2
      rw [(hA3 _).mpr hlive] at hb
      exact Bool.noConfusion hb
    rw [hzero]
    omega

/-- C2 witness: the amended theorem instantiated on the two-object heap
with the empty root set; object pointer 208 = 200 + header size is
revived, so start address 200 stays registered. -/
theorem C2_collect_reach_registry_witness :
    exReviveState.collection_lock = false ∧
    (200 ∈ (collect exCfg exCb [] exReviveState).address_space ↔
      (root_reachable exReviveState []
          (200 + exCfg.size_gc_header) ∨
        finalizer_revived exReviveState []
          (200 + exCfg.size_gc_header))) :=
  ⟨rfl,
   (C2_collect_reach_registry exCfg exCb [] exReviveState rfl (by decide)
      (by decide) (by decide) (by decide) (by decide)
      (surviving_of_tids_zero (fun a => rfl))
      (fun q x t => rfl) (fun q x t => rfl)).1 200 (by decide)⟩

/-- C8 counterexample: on the one-object heap whose object 108 carries
a finalizer, the first collect() revives 108 while scheduling its
finalizer (registry stays [100], counter 24), and the second collect()
-- the registry entry now consumed -- frees it (registry [], counter
8): two back-to-back collections with no intervening allocation do not
yield the same registry and counter. -/
theorem C8_double_collect_counterexample :
    ((collect exCfg exCb [] exFinState).address_space = [100] ∧
     (collect exCfg exCb [] exFinState).cur_heap_size = 24) ∧
    ((collect exCfg exCb []
        (collect exCfg exCb [] exFinState)).address_space = [] ∧
     (collect exCfg exCb []
        (collect exCfg exCb [] exFinState)).cur_heap_size = 8) := by
  have haddr : (collect exCfg exCb [] exFinState).address_space = [100] := by
    decide
  have hucur : (collect exCfg exCb [] exFinState).cur_heap_size = 24 := by
    decide
  have hufins : (collect exCfg exCb []
      exFinState).objects_with_finalizers = [] := by decide
  have hulock : (collect exCfg exCb [] exFinState).collection_lock =
      false := by decide
  obtain ⟨-, -, -, -, -, -, -, hI1⟩ :=
    collect_char exCfg [] exFinState (by decide) (by decide) (by decide)
      (by decide) (by decide) (surviving_of_tids_zero (fun a => rfl))
  have hcoll2 : ∀ w : GCState, w.collection_lock = false →
      (collect exCfg exCb [] w).address_space =
        (collect_pre_exec exCfg [] w).address_space ∧
      (collect exCfg exCb [] w).cur_heap_size =
        (collect_pre_exec exCfg [] w).cur_heap_size ∧
      (collect exCfg exCb [] w).tids =
        (collect_pre_exec exCfg [] w).tids ∧
      (collect exCfg exCb [] w).refs =
        (collect_pre_exec exCfg [] w).refs ∧
      (collect exCfg exCb [] w).varlength =
        (collect_pre_exec exCfg [] w).varlength := by
    intro w hw
    rw [collect_unlocked exCfg exCb [] w hw]
    refine ⟨?_, ?_, ?_, ?_, ?_⟩
    · show (execute_finalizers exCb
        (collect_pre_exec exCfg [] w)).address_space = _
      unfold execute_finalizers
      exact run_queue_preserve exCb (fun t => t.address_space)
        (fun q x t => rfl) _ _
    · show (execute_finalizers exCb
        (collect_pre_exec exCfg [] w)).cur_heap_size = _
      unfold execute_finalizers
      exact run_queue_preserve exCb (fun t => t.cur_heap_size)
        (fun q x t => rfl) _ _
    · show (execute_finalizers exCb (collect_pre_exec exCfg [] w)).tids = _
      unfold execute_finalizers
      exact run_queue_preserve exCb (fun t => t.tids) (fun q x t => rfl) _ _
    · show (execute_finalizers exCb (collect_pre_exec exCfg [] w)).refs = _
      unfold execute_finalizers
      exact run_queue_preserve exCb (fun t => t.refs) (fun q x t => rfl) _ _
    · show (execute_finalizers exCb
        (collect_pre_exec exCfg [] w)).varlength = _
      unfold execute_finalizers
      exact run_queue_preserve exCb (fun t => t.varlength)
        (fun q x t => rfl) _ _
  have hpe_refs1 : ∀ w : GCState,
      (collect_pre_exec exCfg [] w).refs = w.refs := by
    intro w
    show (sweep exCfg (collect_pre_sweep exCfg [] w)).refs = w.refs
    rw [sweep_refs]
    exact collect_pre_sweep_refs exCfg [] w
  have hpe_var1 : ∀ w : GCState,
      (collect_pre_exec exCfg [] w).varlength = w.varlength := by
    intro w
    show (sweep exCfg (collect_pre_sweep exCfg [] w)).varlength = w.varlength
    rw [sweep_varlength]
    exact collect_pre_sweep_varlength exCfg [] w
  obtain ⟨-, -, hutids0, hurefs0, huvar0⟩ := hcoll2 exFinState rfl
  have hu_tids : (collect exCfg exCb [] exFinState).tids =
      exFinState.tids := by
    rw [hutids0, hI1]
  have hu_refs : (collect exCfg exCb [] exFinState).refs =
      exFinState.refs := by
    rw [hurefs0, hpe_refs1]
  have hu_var : (collect exCfg exCb [] exFinState).varlength =
      exFinState.varlength := by
    rw [huvar0, hpe_var1]
  obtain ⟨-, hA32, -, -, hD2, -, hF2, -⟩ :=
    collect_char exCfg [] (collect exCfg exCb [] exFinState)
      (by intro a ha
          rw [haddr] at ha
          rw [List.mem_singleton.mp ha]
          decide)
      (by rw [haddr]; decide)
      (by intro p hp c hc
          rw [hu_refs] at hc
          exact absurd hc (List.not_mem_nil c))
      (fun r hr => absurd hr (List.not_mem_nil r))
      (by intro e he
          rw [hufins] at he
          exact absurd he (List.not_mem_nil e))
      (by intro p
          rw [surviving_congr hu_tids]
          exact surviving_of_tids_zero (fun a => rfl) p)
  have hdead2 : ∀ x, surviving exCfg (collect_pre_sweep exCfg []
      (collect exCfg exCb [] exFinState)) x = false := by
    intro x
    cases hx : surviving exCfg (collect_pre_sweep exCfg []
        (collect exCfg exCb [] exFinState)) x with
    | false => rfl
    | true =>
      exfalso
      rcases (hA32 x).mp hx with ⟨r, hr, -⟩ | ⟨e, he, -, -⟩
      · exact absurd hr (List.not_mem_nil r)
      · rw [hufins] at he
        exact absurd he (List.not_mem_nil e)
  obtain ⟨hc2addr, hc2cur, -, -, -⟩ :=
    hcoll2 (collect exCfg exCb [] exFinState) hulock
  have hfinsm2 : (collect_mark exCfg []
      (collect exCfg exCb [] exFinState)).objects_with_finalizers.isEmpty
      = true := by
    rw [(collect_mark_props exCfg []
      (collect exCfg exCb [] exFinState)).2.2.2.2.2.1, hufins]
    rfl
  have hps2_tids : (collect_pre_sweep exCfg []
      (collect exCfg exCb [] exFinState)).tids =
      (collect exCfg exCb [] exFinState).tids := by
    rw [collect_pre_sweep_tids]
    unfold collect_pre_weak
    dsimp only
    rw [if_pos hfinsm2]
    rfl
  have hps2_var : (collect_pre_sweep exCfg []
      (collect exCfg exCb [] exFinState)).varlength =
      exFinState.varlength := by
    rw [collect_pre_sweep_varlength, hu_var]
  have hget : get_size exCfg (collect_pre_sweep exCfg []
      (collect exCfg exCb [] exFinState)) = get_size exCfg exFinState :=
    get_size_congr (by rw [hps2_tids, hu_tids]) hps2_var
  refine ⟨⟨haddr, hucur⟩, ?_, ?_⟩
  · rw [hc2addr, hD2, List.filter_eq_nil_iff]
    intro a ha
    simp [hdead2]
  · rw [hc2cur, hF2]
    have hself : (collect exCfg exCb [] exFinState).address_space.filter
        (fun a => !surviving exCfg (collect_pre_sweep exCfg []
          (collect exCfg exCb [] exFinState)) (a + exCfg.size_gc_header)) =
        (collect exCfg exCb [] exFinState).address_space := by
      apply List.filter_eq_self.mpr
      intro a ha
      show (!surviving exCfg (collect_pre_sweep exCfg []
        (collect exCfg exCb [] exFinState)) (a + exCfg.size_gc_header)) =
        true
      rw [hdead2]
      rfl
    rw [hself, haddr, hucur, hget]
    decide

/-- C8 (amended): on a well-formed unlocked heap where every
finalizer-registered object is root-reachable (so no finalizer revival
happens), and with finalizer callbacks that leave the collector's
bookkeeping alone, a second collect() with the same roots and no
intervening allocation reproduces the first one's allocation registry
and heap-size counter. -/
theorem C8_collect_idempotent (cfg : GCConfig)
    (cb : Int → Nat → GCState → GCState) (roots : List Nat) (s : GCState)
    (hlock : s.collection_lock = false)
    (hpos : ∀ a ∈ s.address_space, 0 < a)
    (hnd : s.address_space.Nodup)
    (hclosed : ∀ p ∈ objptrs cfg s.address_space, ∀ c ∈ s.refs p,
      c ∈ objptrs cfg s.address_space)
    (hroots : ∀ r ∈ roots, r ∈ objptrs cfg s.address_space)
    (hfins : ∀ e ∈ s.objects_with_finalizers,
      e.1 ∈ objptrs cfg s.address_space)
    (hclear : ∀ p, surviving cfg s p = false)
    (hnofin : ∀ e ∈ s.objects_with_finalizers, root_reachable s roots e.1)
    (hcb_addr : ∀ q x t, (cb q x t).address_space = t.address_space)
    (hcb_cur : ∀ q x t, (cb q x t).cur_heap_size = t.cur_heap_size)
    (hcb_refs : ∀ q x t, (cb q x t).refs = t.refs)
    (hcb_tids : ∀ q x t, (cb q x t).tids = t.tids)
    (hcb_fins : ∀ q x t, (cb q x t).objects_with_finalizers =
      t.objects_with_finalizers) :
    (collect cfg cb roots (collect cfg cb roots s)).address_space =
      (collect cfg cb roots s).address_space ∧
    (collect cfg cb roots (collect cfg cb roots s)).cur_heap_size =
      (collect cfg cb roots s).cur_heap_size := by
  obtain ⟨hK, hA3, hB3, hG, hD, hE2, hF, hI⟩ :=
    collect_char cfg roots s hpos hnd hclosed hroots hfins hclear
  have hpe_refs : ∀ w, (collect_pre_exec cfg roots w).refs = w.refs := by
    intro w
    show (sweep cfg (collect_pre_sweep cfg roots w)).refs = w.refs
    rw [sweep_refs]
    exact collect_pre_sweep_refs cfg roots w
  have hcoll : ∀ w : GCState, w.collection_lock = false →
      (collect cfg cb roots w).address_space =
        (collect_pre_exec cfg roots w).address_space ∧
      (collect cfg cb roots w).cur_heap_size =
        (collect_pre_exec cfg roots w).cur_heap_size ∧
      (collect cfg cb roots w).refs = (collect_pre_exec cfg roots w).refs ∧
      (collect cfg cb roots w).tids = (collect_pre_exec cfg roots w).tids ∧
      (collect cfg cb roots w).objects_with_finalizers =
        (collect_pre_exec cfg roots w).objects_with_finalizers ∧
      (collect cfg cb roots w).collection_lock = false := by
    intro w hw
    rw [collect_unlocked cfg cb roots w hw]
    refine ⟨?_, ?_, ?_, ?_, ?_, rfl⟩
    · show (execute_finalizers cb (collect_pre_exec cfg roots w)).address_space
        = _
      unfold execute_finalizers
      exact run_queue_preserve cb (fun t => t.address_space) hcb_addr _ _
    · show (execute_finalizers cb (collect_pre_exec cfg roots w)).cur_heap_size
        = _
      unfold execute_finalizers
      exact run_queue_preserve cb (fun t => t.cur_heap_size) hcb_cur _ _
    · show (execute_finalizers cb (collect_pre_exec cfg roots w)).refs = _
      unfold execute_finalizers
      exact run_queue_preserve cb (fun t => t.refs) hcb_refs _ _
    · show (execute_finalizers cb (collect_pre_exec cfg roots w)).tids = _
      unfold execute_finalizers
      exact run_queue_preserve cb (fun t => t.tids) hcb_tids _ _
    · show (execute_finalizers cb
          (collect_pre_exec cfg roots w)).objects_with_finalizers = _
      unfold execute_finalizers
      exact run_queue_preserve cb (fun t => t.objects_with_finalizers)
        hcb_fins _ _
  obtain ⟨hu_addr, hu_cur, hu_refs0, hu_tids0, hu_fins0, hu_lock⟩ :=
    hcoll s hlock
  have hu_refs : (collect cfg cb roots s).refs = s.refs := by
    rw [hu_refs0, hpe_refs]
  have hu_tids : (collect cfg cb roots s).tids = s.tids := by
    rw [hu_tids0, hI]
  have hnorev : ∀ x, ¬ finalizer_revived s roots x := by
    rintro x ⟨e, he, hnr, -⟩
    exact hnr (hnofin e he)
  have hA3x : ∀ x, surviving cfg (collect_pre_sweep cfg roots s) x = true ↔
      root_reachable s roots x := by
    intro x
    rw [hA3 x]
    constructor
    · rintro (h | h)
      · exact h
      · exact absurd h (hnorev x)
    · exact Or.inl
  have hfins_all : s.objects_with_finalizers.filter
      (fun e => surviving cfg (collect_mark cfg roots s) e.1) =
      s.objects_with_finalizers := by
    apply List.filter_eq_self.mpr
    intro e he
    exact (hK e.1).mpr (hnofin e he)
  have hu_fins : (collect cfg cb roots s).objects_with_finalizers =
      s.objects_with_finalizers := by
    rw [hu_fins0, hG, hfins_all]
  have hmemu : ∀ a, a ∈ (collect cfg cb roots s).address_space ↔
      (a ∈ s.address_space ∧
        root_reachable s roots (a + cfg.size_gc_header)) := by
    intro a
    rw [hu_addr, hD, List.mem_filter]
    constructor
    · rintro ⟨h1, h2⟩
      exact ⟨h1, (hA3x _).mp h2⟩
    · rintro ⟨h1, h2⟩
      exact ⟨h1, (hA3x _).mpr h2⟩
  have hpos_u : ∀ a ∈ (collect cfg cb roots s).address_space, 0 < a := by
    intro a ha
    exact hpos a ((hmemu a).mp ha).1
  have hnd_u : (collect cfg cb roots s).address_space.Nodup := by
    rw [hu_addr, hD]
    exact hnd.filter _
  have hOsub : ∀ x, x ∈ objptrs cfg (collect cfg cb roots s).address_space ↔
      (x ∈ objptrs cfg s.address_space ∧ root_reachable s roots x) := by
    intro x
    constructor
    · intro hx
      obtain ⟨a, ha, rfl⟩ := List.mem_map.mp hx
      obtain ⟨h1, h2⟩ := (hmemu a).mp ha
      exact ⟨List.mem_map.mpr ⟨a, h1, rfl⟩, h2⟩
    · rintro ⟨hx, hrr⟩
      obtain ⟨a, ha, rfl⟩ := List.mem_map.mp hx
      exact List.mem_map.mpr ⟨a, (hmemu a).mpr ⟨ha, hrr⟩, rfl⟩
  have hrr_step : ∀ p c, root_reachable s roots p → c ∈ s.refs p →
      root_reachable s roots c := by
    rintro p c ⟨r, hr, hrp⟩ hc
    exact ⟨r, hr, Relation.ReflTransGen.tail hrp hc⟩
  have hclosed_u : ∀ p ∈ objptrs cfg (collect cfg cb roots s).address_space,
      ∀ c ∈ (collect cfg cb roots s).refs p,
        c ∈ objptrs cfg (collect cfg cb roots s).address_space := by
    intro p hp c hc
    rw [hu_refs] at hc
    obtain ⟨hpO, hprr⟩ := (hOsub p).mp hp
    exact (hOsub c).mpr ⟨hclosed p hpO c hc, hrr_step p c hprr hc⟩
  have hroots_u : ∀ r ∈ roots,
      r ∈ objptrs cfg (collect cfg cb roots s).address_space := by
    intro r hr
    exact (hOsub r).mpr ⟨hroots r hr, ⟨r, hr, Relation.ReflTransGen.refl⟩⟩
  have hfins_u : ∀ e ∈ (collect cfg cb roots s).objects_with_finalizers,
      e.1 ∈ objptrs cfg (collect cfg cb roots s).address_space := by
    intro e he
    rw [hu_fins] at he
    exact (hOsub e.1).mpr ⟨hfins e he, hnofin e he⟩
  have hclear_u : ∀ p, surviving cfg (collect cfg cb roots s) p = false := by
    intro p
    rw [surviving_congr hu_tids]
    exact hclear p
  obtain ⟨-, hA32, -, -, hD2, -, hF2, -⟩ :=
    collect_char cfg roots (collect cfg cb roots s) hpos_u hnd_u hclosed_u
      hroots_u hfins_u hclear_u
  obtain ⟨hv_addr, hv_cur, -, -, -, -⟩ :=
    hcoll (collect cfg cb roots s) hu_lock
  have hrr_u : ∀ x, root_reachable (collect cfg cb roots s) roots x ↔
      root_reachable s roots x := by
    intro x
    unfold root_reachable
    rw [reaches_congr hu_refs]
  have hall : ∀ a ∈ (collect cfg cb roots s).address_space,
      surviving cfg
        (collect_pre_sweep cfg roots (collect cfg cb roots s))
        (a + cfg.size_gc_header) = true := by
    intro a ha
    apply (hA32 _).mpr
    apply Or.inl
    rw [hrr_u]
    exact ((hmemu a).mp ha).2
  constructor
  · rw [hv_addr, hD2]
    exact List.filter_eq_self.mpr hall
  · rw [hv_cur, hF2]
    have hnil : (collect cfg cb roots s).address_space.filter
        (fun a => !surviving cfg
          (collect_pre_sweep cfg roots (collect cfg cb roots s))
          (a + cfg.size_gc_header)) = [] := by
      rw [List.filter_eq_nil_iff]
      intro a ha
      simp [hall a ha]
    rw [hnil]
    simp

/-- C8 witness: the amended theorem applied to the rooted one-object
heap (no finalizers, object pointer 108 rooted). -/
theorem C8_collect_idempotent_witness :
    exRootedState.collection_lock = false ∧
    ((collect exCfg exCb [108]
        (collect exCfg exCb [108] exRootedState)).address_space =
      (collect exCfg exCb [108] exRootedState).address_space ∧
     (collect exCfg exCb [108]
        (collect exCfg exCb [108] exRootedState)).cur_heap_size =
      (collect exCfg exCb [108] exRootedState).cur_heap_size) :=
  ⟨rfl,
   C8_collect_idempotent exCfg exCb [108] exRootedState rfl (by decide)
     (by decide) (by decide) (by decide) (by decide)
     (surviving_of_tids_zero (fun a => rfl))
     (fun e he => absurd he (List.not_mem_nil e))
     (fun q x t => rfl) (fun q x t => rfl) (fun q x t => rfl)
     (fun q x t => rfl) (fun q x t => rfl)⟩

end MarkSweep
